import Mathlib

/-!
Verification development for the MIHCSME metadata library
(`mihcsme_omero`): Python strings are embedded as `List Char`
(`PyStr`), Python scalars/containers as the inductive `PyVal`, and
Python dicts as insertion-ordered association lists.  Every definition
below is translated from the repository source (`models.py`,
`parser.py`, `omero_connection.py`), except where a doc comment says
`Modelled from the spec:`.
-/

set_option maxRecDepth 4000

/-- Embedding of a Python `str` as its list of characters. -/
abbrev PyStr := List Char

/-- Coerce a Lean string literal into the `PyStr` embedding. -/
def str (s : String) : PyStr := s.data

/-- Python whitespace test used by `str.strip` (ASCII subset: space,
tab, LF, VT, FF, CR; the spreadsheet values in scope are ASCII). -/
def pyIsSpace (c : Char) : Bool :=
  c.toNat == 32 || c.toNat == 9 || c.toNat == 10 ||
  c.toNat == 11 || c.toNat == 12 || c.toNat == 13

/-- Embedding of Python `str.strip()`: drop whitespace from both ends. -/
def pyStrip (l : PyStr) : PyStr :=
  ((l.dropWhile pyIsSpace).reverse.dropWhile pyIsSpace).reverse

/-- Embedding of Python `str.upper()` on one character (ASCII range;
the well labels and field names in scope are ASCII). -/
def pyUpperChar (c : Char) : Char :=
  if 97 ≤ c.toNat ∧ c.toNat ≤ 122 then Char.ofNat (c.toNat - 32) else c

/-- Embedding of Python `str.upper()`. -/
def pyUpper (l : PyStr) : PyStr := l.map pyUpperChar

/-- ASCII decimal digit test (`'0'` to `'9'`). -/
def isDigitCh (c : Char) : Bool := 48 ≤ c.toNat && c.toNat ≤ 57

/-- Numeric value of an ASCII digit character. -/
def dval (c : Char) : Nat := c.toNat - 48

/-- Digit-run parser for Python `int(str)`: digits with single
underscores allowed strictly between digits (PEP 515), accumulating
the value; anything else rejects. -/
def digitsStep : PyStr → Nat → Option Nat
  | [], acc => some acc
  | c :: rest, acc =>
    if c = '_' then
      match rest with
      | [] => none
      | c2 :: rest2 =>
        if isDigitCh c2 then digitsStep rest2 (acc * 10 + dval c2) else none
    else if isDigitCh c then digitsStep rest (acc * 10 + dval c) else none

/-- Value of a nonempty digit string (no sign), rejecting a leading
underscore, as Python `int` does. -/
def digitsVal (l : PyStr) : Option Nat :=
  match l with
  | [] => none
  | c :: _ => if c = '_' then none else digitsStep l 0

/-- Embedding of Python `int(s)` on `str` input: strip whitespace,
optional single sign, then digits (non-ASCII digits are out of scope).
Returns `none` where Python raises `ValueError`. -/
def pyInt (s : PyStr) : Option Int :=
  let t := pyStrip s
  match t with
  | [] => none
  | c :: rest =>
    if c = '+' then (digitsVal rest).map Int.ofNat
    else if c = '-' then (digitsVal rest).map (fun n => -(Int.ofNat n))
    else (digitsVal t).map Int.ofNat

/-- Decimal rendering of a nonnegative integer, as Python `str(n)`. -/
def natRepr (n : Nat) : PyStr := Nat.toDigits 10 n

/-- Embedding of the Python format expression `f"{n:02d}"` for the
nonnegative values that reach it (zero-pad to two digits). -/
def formatInt02 (n : Int) : PyStr :=
  if n.toNat < 10 then ['0', Nat.digitChar n.toNat] else natRepr n.toNat

/-- Decimal rendering of an integer, as Python `str(i)`. -/
def intRepr (n : Int) : PyStr :=
  if n < 0 then '-' :: natRepr n.natAbs else natRepr n.toNat

/-- Embedding of Python `str.startswith(pre)`. -/
def pyStartsWith (pre l : PyStr) : Bool :=
  match pre, l with
  | [], _ => true
  | _ :: _, [] => false
  | p :: ps, c :: cs => p == c && pyStartsWith ps cs

/-- `models.py` lines 98-104, the `try` block body of
`AssayCondition.normalize_well_name`: parse the column part with
`int`, range-check it, and format the canonical label.  Any
`ValueError` raised here (including the column-range one, which is
raised *inside* the `try`) is caught by the `except ValueError`
clause of the caller. -/
def wellTryBody (row_letter : Char) (col_part : PyStr) : Except PyStr PyStr :=
  match pyInt col_part with
  | none => .error (str "invalid literal for int() with base 10: " ++ col_part)
  | some col_num =>
    if ¬(1 ≤ col_num ∧ col_num ≤ 48) then
      .error (str "Invalid column number (must be 1-48): " ++ intRepr col_num)
    else
      .ok (row_letter :: formatInt02 col_num)

/-- `models.py` lines 88-104 after `v = v.strip().upper()`: length
check, row-letter check (Python chained comparison `"A" <= row_letter
<= "P"` compares code points), then the `try`/`except ValueError`
block, whose handler replaces any caught message with
`Invalid well format: {v}`. -/
def normCore (v : PyStr) : Except PyStr PyStr :=
  match v with
  | [] => .error (str "Invalid well format: " ++ v)
  | [_] => .error (str "Invalid well format: " ++ v)
  | row_letter :: c1 :: cs =>
    if ¬('A'.toNat ≤ row_letter.toNat ∧ row_letter.toNat ≤ 'P'.toNat) then
      .error (str "Invalid row letter (must be A-P): " ++ [row_letter])
    else
      match wellTryBody row_letter (c1 :: cs) with
      | .ok r => .ok r
      | .error _ => .error (str "Invalid well format: " ++ (row_letter :: c1 :: cs))

/-- `AssayCondition.normalize_well_name` (`models.py` lines 84-104):
strip and uppercase the input, then validate/canonicalize.  `.error`
is the embedding of a raised `ValueError` (surfaced by pydantic as a
`ValidationError`). -/
def normalize_well_name (v0 : PyStr) : Except PyStr PyStr :=
  normCore (pyUpper (pyStrip v0))

example : normalize_well_name (str "a1") = .ok (str "A01") := by rfl
example : normalize_well_name (str "A01") = .ok (str "A01") := by rfl
example : normalize_well_name (str " b12 ") = .ok (str "B12") := by rfl
example : normalize_well_name (str "Z1") =
    .error (str "Invalid row letter (must be A-P): Z") := by rfl
example : normalize_well_name (str "A50") =
    .error (str "Invalid well format: A50") := by rfl
example : normalize_well_name (str "Invalid") =
    .error (str "Invalid well format: INVALID") := by rfl
example : normalize_well_name (str "") =
    .error (str "Invalid well format: ") := by rfl

/-! ## Python values and dicts

Spreadsheet cells and annotation values are loosely typed ("Any" in
the source).  `PyVal` is a closed universe sufficient for the data in
scope; Python dicts are embedded as insertion-ordered association
lists (real dicts have pairwise distinct keys, stated as `Nodup`
hypotheses where it matters), with `dictSet` reproducing the
overwrite-in-place semantics of `d[k] = v`. -/

/-- Universe of Python values appearing in the metadata dictionaries. -/
inductive PyVal where
  | s (v : PyStr) : PyVal
  | i (n : Int) : PyVal
  | none : PyVal
  | dict (entries : List (PyStr × PyVal)) : PyVal
  | list (items : List PyVal) : PyVal

/-- Python `d[k]` / `k in d` lookup on an association-list dict
(first binding wins; a real dict has one binding per key). -/
def dictGet {α : Type} (d : List (PyStr × α)) (k : PyStr) : Option α :=
  match d with
  | [] => Option.none
  | (k', v) :: rest => if k' = k then some v else dictGet rest k

/-- Python `d[k] = v`: overwrite in place if the key exists (keeping
its position, as Python dicts do), else append. -/
def dictSet {α : Type} (d : List (PyStr × α)) (k : PyStr) (v : α) : List (PyStr × α) :=
  if d.any (fun e => e.1 = k) then
    d.map (fun e => if e.1 = k then (k, v) else e)
  else d ++ [(k, v)]

/-- The keys of a dict, in insertion order. -/
def dictKeys {α : Type} (d : List (PyStr × α)) : List PyStr := d.map Prod.fst

/-! ## The pydantic models (`models.py`) -/

/-- `InvestigationInformation` (`models.py` lines 8-27): a nested
`{group_name: {key: value}}` mapping. -/
structure InvestigationInformation where
  groups : List (PyStr × List (PyStr × PyVal))

/-- `StudyInformation` (`models.py` lines 30-49). -/
structure StudyInformation where
  groups : List (PyStr × List (PyStr × PyVal))

/-- `AssayInformation` (`models.py` lines 52-71). -/
structure AssayInformation where
  groups : List (PyStr × List (PyStr × PyVal))

/-- `AssayCondition` (`models.py` lines 74-116): one well condition.
A live instance always went through `normalize_well_name` on `well`
(pydantic runs the field validator at construction). -/
structure AssayCondition where
  plate : PyStr
  well : PyStr
  conditions : List (PyStr × PyVal)

/-- `ReferenceSheet` (`models.py` lines 119-137).  Note: the source
declares no validator on `name`; nothing restricts it to `'_'`-prefixed
strings at construction. -/
structure ReferenceSheet where
  name : PyStr
  data : List (PyStr × PyVal)

/-- `MIHCSMEMetadata` (`models.py` lines 140-258): the root aggregate. -/
structure MIHCSMEMetadata where
  investigation_information : Option InvestigationInformation := Option.none
  study_information : Option StudyInformation := Option.none
  assay_information : Option AssayInformation := Option.none
  assay_conditions : List AssayCondition := []
  reference_sheets : List ReferenceSheet := []

/-- Pydantic construction of `AssayCondition(plate=..., well=...,
conditions=...)`: both `plate` and `well` are `str` fields (pydantic
v2 rejects non-string input for them), and the `well` validator
(`normalize_well_name`) runs and can fail. -/
def mkAssayCondition (plateV wellV : PyVal) (conds : List (PyStr × PyVal)) :
    Except PyStr AssayCondition :=
  match plateV, wellV with
  | .s p, .s w =>
    match normalize_well_name w with
    | .ok w2 => .ok ⟨p, w2, conds⟩
    | .error e => .error e
  | _, _ => .error (str "Input should be a valid string")

/-- The `{"Plate": ..., "Well": ..., **condition.conditions}` dict
literal built in `to_omero_dict` (`models.py` lines 177-181):
sequential insertion, so a condition field named `Plate` or `Well`
would overwrite the first two entries. -/
def condDict (c : AssayCondition) : List (PyStr × PyVal) :=
  c.conditions.foldl (fun acc e => dictSet acc e.1 e.2)
    [(str "Plate", PyVal.s c.plate), (str "Well", PyVal.s c.well)]

/-- A tier's `groups` attribute as the dict value written by
`to_omero_dict`. -/
def groupsVal (gs : List (PyStr × List (PyStr × PyVal))) : PyVal :=
  .dict (gs.map (fun p => (p.1, PyVal.dict p.2)))

/-- `MIHCSMEMetadata.to_omero_dict` (`models.py` lines 149-189):
build `result` by successive dict assignments — each present tier's
`groups` under its fixed key, the condition dicts under
`"AssayConditions"` when the list is non-empty (Python truthiness of
a list), and finally every reference sheet under its own name. -/
def MIHCSMEMetadata.to_omero_dict (m : MIHCSMEMetadata) : List (PyStr × PyVal) :=
  let r0 : List (PyStr × PyVal) := []
  let r1 := match m.investigation_information with
    | some t => dictSet r0 (str "InvestigationInformation") (groupsVal t.groups)
    | Option.none => r0
  let r2 := match m.study_information with
    | some t => dictSet r1 (str "StudyInformation") (groupsVal t.groups)
    | Option.none => r1
  let r3 := match m.assay_information with
    | some t => dictSet r2 (str "AssayInformation") (groupsVal t.groups)
    | Option.none => r2
  let r4 := if m.assay_conditions.isEmpty then r3
    else dictSet r3 (str "AssayConditions")
      (.list (m.assay_conditions.map (fun c => PyVal.dict (condDict c))))
  m.reference_sheets.foldl (fun acc r => dictSet acc r.name (.dict r.data)) r4

/-- Error-propagating map: the embedding of a Python `for` loop that
builds a list and can raise on any element (first failure wins). -/
def mapME {α β : Type} (f : α → Except PyStr β) : List α → Except PyStr (List β)
  | [] => .ok []
  | x :: xs =>
    match f x with
    | .error e => .error e
    | .ok y =>
      match mapME f xs with
      | .error e => .error e
      | .ok ys => .ok (y :: ys)

/-- Pydantic validation of a tier value in `from_omero_dict`
(e.g. `InvestigationInformation(groups=data[...])`): the value must
be a dict whose values are all dicts (`Dict[str, Dict[str, Any]]`). -/
def parseGroups (v : PyVal) : Except PyStr (List (PyStr × List (PyStr × PyVal))) :=
  match v with
  | .dict entries =>
    mapME (fun e =>
      match e.2 with
      | .dict kvs => .ok (e.1, kvs)
      | _ => .error (str "Input should be a valid dictionary")) entries
  | _ => .error (str "Input should be a valid dictionary")

/-- Tier handling in `from_omero_dict` (`models.py` lines 202-212):
a tier is built exactly when its key is present. -/
def parseTierOpt (v : Option PyVal) :
    Except PyStr (Option (List (PyStr × List (PyStr × PyVal)))) :=
  match v with
  | Option.none => .ok Option.none
  | some tv => (parseGroups tv).map some

/-- One iteration of the `AssayConditions` loop in `from_omero_dict`
(`models.py` lines 216-225): `condition_dict.get("Plate", "")`,
`condition_dict.get("Well", "")`, all other items become `conditions`,
then `AssayCondition(...)` is constructed (its validator can raise).
A non-dict element fails (`.get` on it raises `AttributeError`). -/
def parseCondition (v : PyVal) : Except PyStr AssayCondition :=
  match v with
  | .dict entries =>
    let plateV := (dictGet entries (str "Plate")).getD (PyVal.s [])
    let wellV := (dictGet entries (str "Well")).getD (PyVal.s [])
    let conds := entries.filter
      (fun e => !(e.1 == str "Plate") && !(e.1 == str "Well"))
    mkAssayCondition plateV wellV conds
  | _ => .error (str "object has no attribute get")

/-- The `AssayConditions` clause of `from_omero_dict` (`models.py`
lines 214-225): only a value that is a list is processed; anything
else (or an absent key) yields no conditions. -/
def parseConds (v : Option PyVal) : Except PyStr (List AssayCondition) :=
  match v with
  | some (.list items) => mapME parseCondition items
  | _ => .ok []

/-- The reference-sheet loop of `from_omero_dict` (`models.py` lines
227-230): every top-level item whose key starts with `'_'` and whose
value is a dict becomes a `ReferenceSheet`, in iteration order. -/
def collectRefs (data : List (PyStr × PyVal)) : List ReferenceSheet :=
  data.filterMap (fun e =>
    if pyStartsWith (str "_") e.1 then
      match e.2 with
      | .dict d => some ⟨e.1, d⟩
      | _ => Option.none
    else Option.none)

/-- `MIHCSMEMetadata.from_omero_dict` (`models.py` lines 191-238):
tiers, then conditions, then reference sheets; the first pydantic
validation failure propagates. -/
def MIHCSMEMetadata.from_omero_dict (data : List (PyStr × PyVal)) :
    Except PyStr MIHCSMEMetadata :=
  match parseTierOpt (dictGet data (str "InvestigationInformation")) with
  | .error e => .error e
  | .ok invG =>
  match parseTierOpt (dictGet data (str "StudyInformation")) with
  | .error e => .error e
  | .ok stuG =>
  match parseTierOpt (dictGet data (str "AssayInformation")) with
  | .error e => .error e
  | .ok assG =>
  match parseConds (dictGet data (str "AssayConditions")) with
  | .error e => .error e
  | .ok conds =>
    .ok ⟨invG.map InvestigationInformation.mk,
         stuG.map StudyInformation.mk,
         assG.map AssayInformation.mk,
         conds,
         collectRefs data⟩

example :
    MIHCSMEMetadata.from_omero_dict
      [(str "InvestigationInformation",
        .dict [(str "Investigation", .dict [(str "ID", .s (str "INV-001"))])]),
       (str "AssayConditions",
        .list [.dict [(str "Plate", .s (str "Plate1")),
                      (str "Well", .s (str "A1")),
                      (str "Compound", .s (str "DMSO"))]]),
       (str "_Organisms", .dict [(str "Human", .s (str "Homo sapiens"))])] =
    .ok ⟨some ⟨[(str "Investigation", [(str "ID", .s (str "INV-001"))])]⟩,
         Option.none, Option.none,
         [⟨str "Plate1", str "A01", [(str "Compound", .s (str "DMSO"))]⟩],
         [⟨str "_Organisms", [(str "Human", .s (str "Homo sapiens"))]⟩]⟩ := by rfl

/-! ## Well-normalization lemmas -/

/-- `Char.ofNat` and `Char.toNat` cancel on valid (BMP) code points. -/
lemma char_toNat_ofNat {m : Nat} (h : m < 55296) : (Char.ofNat m).toNat = m := by
  have hv : m.isValidChar := Or.inl h
  rw [Char.ofNat, dif_pos hv]
  simp [Char.ofNatAux, Char.toNat, UInt32.toNat, BitVec.toNat_ofNatLt]

/-- Characters at or above `'0'` are not Python whitespace. -/
lemma pyIsSpace_false {c : Char} (h : 48 ≤ c.toNat) : pyIsSpace c = false := by
  simp [pyIsSpace]
  omega

lemma dropWhile_all_false {p : Char → Bool} :
    ∀ {l : PyStr}, (∀ c ∈ l, p c = false) → l.dropWhile p = l
  | [], _ => rfl
  | c :: cs, h => by
    simp [List.dropWhile, h c (List.mem_cons_self c cs)]

/-- `str.strip()` is the identity on whitespace-free strings. -/
lemma pyStrip_eq_self {l : PyStr} (h : ∀ c ∈ l, pyIsSpace c = false) :
    pyStrip l = l := by
  unfold pyStrip
  rw [dropWhile_all_false h, dropWhile_all_false, List.reverse_reverse]
  intro c hc
  exact h c (List.mem_reverse.mp hc)

/-- `str.upper()` fixes characters below `'a'`. -/
lemma pyUpperChar_id {c : Char} (h : c.toNat < 97) : pyUpperChar c = c := by
  unfold pyUpperChar
  rw [if_neg]
  omega

lemma pyUpper_id : ∀ {l : PyStr}, (∀ c ∈ l, c.toNat < 97) → pyUpper l = l
  | [], _ => rfl
  | c :: cs, h => by
    show pyUpperChar c :: pyUpper cs = c :: cs
    rw [pyUpperChar_id (h c (List.mem_cons_self c cs)),
        pyUpper_id (fun d hd => h d (List.mem_cons_of_mem c hd))]

/-- Inversion of a successful `normCore`: the input had an A-P row
letter and a column part parsing into `[1, 48]`, and the output is the
row letter followed by the zero-padded column. -/
lemma normCore_ok {v w : PyStr} (h : normCore v = .ok w) :
    ∃ (r c1 : Char) (cs : PyStr) (n : Int),
      v = r :: c1 :: cs ∧ 65 ≤ r.toNat ∧ r.toNat ≤ 80 ∧
      1 ≤ n ∧ n ≤ 48 ∧ w = r :: formatInt02 n := by
  match v with
  | [] => simp [normCore] at h
  | [c] => simp [normCore] at h
  | r :: c1 :: cs =>
    simp only [normCore] at h
    split at h
    · simp at h
    · rename_i hrow
      cases htb : wellTryBody r (c1 :: cs) with
      | error e => rw [htb] at h; simp at h
      | ok res =>
        rw [htb] at h
        simp only [Except.ok.injEq] at h
        subst h
        cases hpi : pyInt (c1 :: cs) with
        | none =>
          simp only [wellTryBody, hpi] at htb
          exact Except.noConfusion htb
        | some n =>
          simp only [wellTryBody, hpi] at htb
          split at htb
          · simp at htb
          · rename_i hrange
            simp only [Except.ok.injEq] at htb
            push_neg at hrow hrange
            have hA : 'A'.toNat = 65 := rfl
            have hP : 'P'.toNat = 80 := rfl
            rw [hA, hP] at hrow
            exact ⟨r, c1, cs, n, rfl, hrow.1, hrow.2, hrange.1, hrange.2, htb.symm⟩

/-- For a column value in range, `f"{n:02d}"` is two ASCII digits. -/
lemma formatInt02_spec {n : Int} (h1 : 1 ≤ n) (h2 : n ≤ 48) :
    ∃ d1 d2, formatInt02 n = [d1, d2] ∧ 48 ≤ d1.toNat ∧ d1.toNat ≤ 57 ∧
      48 ≤ d2.toNat ∧ d2.toNat ≤ 57 := by
  lift n to ℕ using (by omega) with m
  have hm1 : 1 ≤ m := by exact_mod_cast h1
  have hm2 : m ≤ 48 := by exact_mod_cast h2
  interval_cases m <;> exact ⟨_, _, rfl, by decide, by decide, by decide, by decide⟩

/-- Re-running the `try`-block body on a canonically formatted column
reproduces it. -/
lemma wellTryBody_fix (r : Char) {n : Int} (h1 : 1 ≤ n) (h2 : n ≤ 48) :
    wellTryBody r (formatInt02 n) = .ok (r :: formatInt02 n) := by
  lift n to ℕ using (by omega) with m
  have hm1 : 1 ≤ m := by exact_mod_cast h1
  have hm2 : m ≤ 48 := by exact_mod_cast h2
  interval_cases m <;> rfl

/-- A successful normalization result is a fixed point of
`normalize_well_name`. -/
lemma normalize_fixpoint {v0 w : PyStr}
    (h : normalize_well_name v0 = .ok w) : normalize_well_name w = .ok w := by
  obtain ⟨r, c1, cs, n, _, hr1, hr2, h1, h2, hw⟩ := normCore_ok h
  obtain ⟨d1, d2, hf, hd1a, hd1b, hd2a, hd2b⟩ := formatInt02_spec h1 h2
  subst hw
  rw [hf]
  have hnos : ∀ c ∈ r :: [d1, d2], pyIsSpace c = false := by
    intro c hc
    rcases List.mem_cons.mp hc with rfl | hc2
    · exact pyIsSpace_false (by omega)
    · apply pyIsSpace_false
      rcases List.mem_cons.mp hc2 with rfl | hc3
      · omega
      · rcases List.mem_cons.mp hc3 with rfl | hc4
        · omega
        · simp at hc4
  have hup : ∀ c ∈ r :: [d1, d2], c.toNat < 97 := by
    intro c hc
    rcases List.mem_cons.mp hc with rfl | hc2
    · omega
    · rcases List.mem_cons.mp hc2 with rfl | hc3
      · omega
      · rcases List.mem_cons.mp hc3 with rfl | hc4
        · omega
        · simp at hc4
  rw [normalize_well_name, pyStrip_eq_self hnos, pyUpper_id hup]
  simp only [normCore]
  rw [if_neg]
  · rw [← hf, wellTryBody_fix r h1 h2, hf]
  · have hA : 'A'.toNat = 65 := rfl
    have hP : 'P'.toNat = 80 := rfl
    rw [hA, hP]
    push_neg
    exact ⟨hr1, hr2⟩

/-! ## The well-label grammar of spec section 8 -/

/-- Row letter of the pattern `[A-Pa-p]`. -/
def isRowAny (c : Char) : Bool :=
  (65 ≤ c.toNat && c.toNat ≤ 80) || (97 ≤ c.toNat && c.toNat ≤ 112)

/-- The spec's well-label grammar: `^[A-Pa-p][0-9]{1,2}$` with numeric
part in `[1, 48]`. -/
def wellPattern (l : PyStr) : Bool :=
  match l with
  | [c, d] => isRowAny c && isDigitCh d && decide (1 ≤ dval d) &&
      decide (dval d ≤ 48)
  | [c, d, e] => isRowAny c && isDigitCh d && isDigitCh e &&
      decide (1 ≤ dval d * 10 + dval e) && decide (dval d * 10 + dval e ≤ 48)
  | _ => false

/-- Uppercasing a row letter of either case lands in `A`-`P`. -/
lemma pyUpperChar_row {c : Char} (h : isRowAny c = true) :
    65 ≤ (pyUpperChar c).toNat ∧ (pyUpperChar c).toNat ≤ 80 := by
  simp only [isRowAny, Bool.or_eq_true, Bool.and_eq_true, decide_eq_true_eq] at h
  unfold pyUpperChar
  rcases h with h | h
  · rw [if_neg (by omega)]
    omega
  · rw [if_pos (by omega), char_toNat_ofNat (by omega)]
    omega

/-- `int` on a single ASCII digit. -/
lemma pyInt_one {d : Char} (hd : 48 ≤ d.toNat) (hd' : d.toNat ≤ 57) :
    pyInt [d] = some (Int.ofNat (dval d)) := by
  have hplus : ¬(d = '+') := fun he => absurd (he ▸ hd) (by decide)
  have hminus : ¬(d = '-') := fun he => absurd (he ▸ hd) (by decide)
  have hund : ¬(d = '_') := fun he => absurd (he ▸ hd') (by decide)
  have hdig : isDigitCh d = true := by simp [isDigitCh]; omega
  simp only [pyInt,
    pyStrip_eq_self (l := [d]) (by
      intro c hc
      simp at hc
      subst hc
      exact pyIsSpace_false hd)]
  rw [if_neg hplus, if_neg hminus]
  simp only [digitsVal]
  rw [if_neg hund]
  simp only [digitsStep]
  rw [if_neg hund, if_pos hdig]
  simp [digitsStep]

/-- `int` on two ASCII digits. -/
lemma pyInt_two {d e : Char} (hd : 48 ≤ d.toNat) (hd' : d.toNat ≤ 57)
    (he : 48 ≤ e.toNat) (he' : e.toNat ≤ 57) :
    pyInt [d, e] = some (Int.ofNat (dval d * 10 + dval e)) := by
  have hplus : ¬(d = '+') := fun hq => absurd (hq ▸ hd) (by decide)
  have hminus : ¬(d = '-') := fun hq => absurd (hq ▸ hd) (by decide)
  have hundd : ¬(d = '_') := fun hq => absurd (hq ▸ hd') (by decide)
  have hunde : ¬(e = '_') := fun hq => absurd (hq ▸ he') (by decide)
  have hdigd : isDigitCh d = true := by simp [isDigitCh]; omega
  have hdige : isDigitCh e = true := by simp [isDigitCh]; omega
  simp only [pyInt,
    pyStrip_eq_self (l := [d, e]) (by
      intro c hc
      simp at hc
      rcases hc with rfl | rfl
      · exact pyIsSpace_false hd
      · exact pyIsSpace_false he)]
  rw [if_neg hplus, if_neg hminus]
  simp only [digitsVal]
  rw [if_neg hundd]
  simp only [digitsStep]
  rw [if_neg hundd, if_pos hdigd]
  rw [if_neg hunde, if_pos hdige]
  simp only [Option.map_some', Option.some.injEq, Int.ofNat.injEq]
  omega

/-- On any string in the spec's well-label grammar, normalization
succeeds. -/
lemma pattern_success {l : PyStr} (h : wellPattern l = true) :
    ∃ w, normalize_well_name l = .ok w := by
  match l with
  | [] => simp [wellPattern] at h
  | [c] => simp [wellPattern] at h
  | c :: d :: e :: f :: rest => simp [wellPattern] at h
  | [c, d] =>
    simp only [wellPattern, Bool.and_eq_true, decide_eq_true_eq] at h
    obtain ⟨⟨⟨hrow, hdig⟩, hlo⟩, hhi⟩ := h
    simp only [isDigitCh, Bool.and_eq_true, decide_eq_true_eq] at hdig
    have hrowN : 65 ≤ c.toNat ∨ 97 ≤ c.toNat := by
      simp only [isRowAny, Bool.or_eq_true, Bool.and_eq_true,
        decide_eq_true_eq] at hrow
      omega
    rw [normalize_well_name,
        pyStrip_eq_self (by
          intro x hx
          simp at hx
          rcases hx with rfl | rfl
          · exact pyIsSpace_false (by omega)
          · exact pyIsSpace_false (by omega))]
    show ∃ w, normCore [pyUpperChar c, pyUpperChar d] = .ok w
    obtain ⟨hc1, hc2⟩ := pyUpperChar_row hrow
    rw [pyUpperChar_id (c := d) (by omega)]
    simp only [normCore]
    rw [if_neg (by
      have hA : 'A'.toNat = 65 := rfl
      have hP : 'P'.toNat = 80 := rfl
      rw [hA, hP]
      push_neg
      exact ⟨hc1, hc2⟩)]
    simp only [wellTryBody, pyInt_one hdig.1 hdig.2]
    rw [if_neg (by
      push_neg
      simp only [Int.ofNat_eq_coe]
      refine ⟨?_, ?_⟩ <;> omega)]
    exact ⟨_, rfl⟩
  | [c, d, e] =>
    simp only [wellPattern, Bool.and_eq_true, decide_eq_true_eq] at h
    obtain ⟨⟨⟨⟨hrow, hdigd⟩, hdige⟩, hlo⟩, hhi⟩ := h
    simp only [isDigitCh, Bool.and_eq_true, decide_eq_true_eq] at hdigd hdige
    have hrowN : 65 ≤ c.toNat ∨ 97 ≤ c.toNat := by
      simp only [isRowAny, Bool.or_eq_true, Bool.and_eq_true,
        decide_eq_true_eq] at hrow
      omega
    rw [normalize_well_name,
        pyStrip_eq_self (by
          intro x hx
          simp at hx
          rcases hx with rfl | rfl | rfl
          · exact pyIsSpace_false (by omega)
          · exact pyIsSpace_false (by omega)
          · exact pyIsSpace_false (by omega))]
    show ∃ w, normCore [pyUpperChar c, pyUpperChar d, pyUpperChar e] = .ok w
    obtain ⟨hc1, hc2⟩ := pyUpperChar_row hrow
    rw [pyUpperChar_id (c := d) (by omega), pyUpperChar_id (c := e) (by omega)]
    simp only [normCore]
    rw [if_neg (by
      have hA : 'A'.toNat = 65 := rfl
      have hP : 'P'.toNat = 80 := rfl
      rw [hA, hP]
      push_neg
      exact ⟨hc1, hc2⟩)]
    simp only [wellTryBody, pyInt_two hdigd.1 hdigd.2 hdige.1 hdige.2]
    rw [if_neg (by
      push_neg
      simp only [Int.ofNat_eq_coe]
      refine ⟨?_, ?_⟩ <;> omega)]
    exact ⟨_, rfl⟩

/-- C7: for every string matching `^[A-Pa-p][0-9]{1,2}$` with numeric
part in [1, 48], well-label normalization succeeds and is idempotent —
normalizing the normalized result yields the same canonical `LetterNN`
string — and `normalize("a1") = "A01"`. -/
theorem c7_well_normalization_idempotent (s : PyStr) (h : wellPattern s = true) :
    (∃ w, normalize_well_name s = .ok w ∧ normalize_well_name w = .ok w) ∧
    normalize_well_name (str "a1") = .ok (str "A01") := by
  refine ⟨?_, by rfl⟩
  obtain ⟨w, hw⟩ := pattern_success h
  exact ⟨w, hw, normalize_fixpoint hw⟩

/-- Witness for C7 at the concrete input `"b7"`. -/
theorem c7_well_normalization_idempotent_witness :
    wellPattern (str "b7") = true ∧
    ((∃ w, normalize_well_name (str "b7") = .ok w ∧
        normalize_well_name w = .ok w) ∧
      normalize_well_name (str "a1") = .ok (str "A01")) :=
  ⟨by decide, c7_well_normalization_idempotent (str "b7") (by decide)⟩

/-- C2 (code bug, failing input `"A50"`): the length and row checks
pass and the column part parses to 50, outside [1, 48] — but the
validator does not surface the column-specific message.  The
`ValueError` raised inside the `try` block (second conjunct: the
`try`-body alone does produce `Invalid column number (must be 1-48):
50`) is caught by that block's own `except ValueError` handler, which
replaces it with the generic format error (first conjunct).  The
repository's test `test_assay_condition_well_validation` expects a
message matching "Invalid column number" for this input. -/
theorem c2_column_error_swallowed :
    normalize_well_name (str "A50") = .error (str "Invalid well format: A50") ∧
    wellTryBody 'A' (str "50") =
      .error (str "Invalid column number (must be 1-48): 50") :=
  ⟨by rfl, by rfl⟩

/-! ## Association-list and `mapME` lemmas -/

lemma dictGet_append {α : Type} (a b : List (PyStr × α)) (k : PyStr) :
    dictGet (a ++ b) k =
      (match dictGet a k with
        | some v => some v
        | Option.none => dictGet b k) := by
  induction a with
  | nil => simp [dictGet]
  | cons e rest ih =>
    by_cases he : e.1 = k
    · simp [dictGet, he]
    · simpa [dictGet, he] using ih

lemma dictSet_fresh {α : Type} {d : List (PyStr × α)} {k : PyStr} (v : α)
    (h : ∀ e ∈ d, e.1 ≠ k) : dictSet d k v = d ++ [(k, v)] := by
  unfold dictSet
  rw [if_neg]
  simp only [List.any_eq_true, decide_eq_true_eq, not_exists]
  intro e
  intro hand
  exact h e hand.1 hand.2

lemma foldl_dictSet_append {α : Type} :
    ∀ (kvs acc : List (PyStr × α)),
    (∀ kv ∈ kvs, ∀ e ∈ acc, e.1 ≠ kv.1) →
    (kvs.map Prod.fst).Nodup →
    kvs.foldl (fun a e => dictSet a e.1 e.2) acc = acc ++ kvs
  | [], acc, _, _ => by simp
  | kv :: kvs, acc, hfresh, hnd => by
    simp only [List.foldl_cons]
    rw [dictSet_fresh kv.2
      (fun e he => hfresh kv (List.mem_cons_self kv kvs) e he)]
    simp only [List.map_cons, List.nodup_cons] at hnd
    rw [foldl_dictSet_append kvs (acc ++ [(kv.1, kv.2)])
      (by
        intro kv' hkv' e he
        rcases List.mem_append.mp he with he1 | he2
        · exact hfresh kv' (List.mem_cons_of_mem kv hkv') e he1
        · have : e = (kv.1, kv.2) := by simpa using he2
          subst this
          intro hcon
          exact hnd.1 (hcon ▸ List.mem_map_of_mem Prod.fst hkv')) hnd.2]
    simp

lemma mapME_ok_of_forall {α β : Type} {f : α → Except PyStr β} {g : α → β} :
    ∀ {l : List α}, (∀ x ∈ l, f x = .ok (g x)) → mapME f l = .ok (l.map g)
  | [], _ => rfl
  | x :: xs, h => by
    simp only [mapME, h x (List.mem_cons_self x xs),
      mapME_ok_of_forall (fun y hy => h y (List.mem_cons_of_mem x hy)), List.map_cons]

lemma mapME_ok_mem {α β : Type} {f : α → Except PyStr β} :
    ∀ {l : List α} {ys : List β}, mapME f l = .ok ys →
      ∀ y ∈ ys, ∃ x ∈ l, f x = .ok y := by
  intro l
  induction l with
  | nil =>
    intro ys h y hy
    simp only [mapME, Except.ok.injEq] at h
    subst h
    simp at hy
  | cons x xs ih =>
    intro ys h y hy
    simp only [mapME] at h
    cases hfx : f x with
    | error e => rw [hfx] at h; exact Except.noConfusion h
    | ok y0 =>
      rw [hfx] at h
      cases hrest : mapME f xs with
      | error e => rw [hrest] at h; exact Except.noConfusion h
      | ok ys0 =>
        rw [hrest] at h
        simp only [Except.ok.injEq] at h
        subst h
        rcases List.mem_cons.mp hy with rfl | hy2
        · exact ⟨x, List.mem_cons_self x xs, hfx⟩
        · obtain ⟨x', hx', hfx'⟩ := ih hrest y hy2
          exact ⟨x', List.mem_cons_of_mem x hx', hfx'⟩

lemma mapME_error_of_mem {α β : Type} {f : α → Except PyStr β} :
    ∀ {l : List α} {x : α}, x ∈ l → (∀ y, f x ≠ .ok y) →
      ∃ e, mapME f l = .error e := by
  intro l
  induction l with
  | nil => intro x hx; simp at hx
  | cons a xs ih =>
    intro x hx hbad
    rcases List.mem_cons.mp hx with rfl | hx2
    · cases hfa : f x with
      | error e => exact ⟨e, by simp [mapME, hfa]⟩
      | ok y => exact absurd hfa (hbad y)
    · cases hfa : f a with
      | error e => exact ⟨e, by simp [mapME, hfa]⟩
      | ok y =>
        obtain ⟨e, he⟩ := ih hx2 hbad
        exact ⟨e, by simp [mapME, hfa, he]⟩

lemma filterMap_eq_self_of {α : Type} {f : α → Option α} :
    ∀ {l : List α}, (∀ a ∈ l, f a = some a) → l.filterMap f = l
  | [], _ => rfl
  | a :: l, h => by
    rw [List.filterMap_cons, h a (List.mem_cons_self a l),
      filterMap_eq_self_of (fun b hb => h b (List.mem_cons_of_mem a hb))]

/-! ## The serialized shape of `to_omero_dict` -/

/-- The dict entries contributed by one optional tier (derived form
used to state lemmas about `to_omero_dict`). -/
def tierEntries (key : PyStr)
    (gs : Option (List (PyStr × List (PyStr × PyVal)))) : List (PyStr × PyVal) :=
  match gs with
  | some g => [(key, groupsVal g)]
  | Option.none => []

/-- The dict entries contributed by the conditions list (derived form). -/
def condEntries (cs : List AssayCondition) : List (PyStr × PyVal) :=
  if cs.isEmpty then []
  else [(str "AssayConditions", PyVal.list (cs.map (fun c => PyVal.dict (condDict c))))]

/-- The dict entries contributed by the reference sheets (derived form). -/
def refEntries (rs : List ReferenceSheet) : List (PyStr × PyVal) :=
  rs.map (fun r => (r.name, PyVal.dict r.data))

lemma startsWith_underscore {n : PyStr} (h : pyStartsWith (str "_") n = true) :
    ∃ t, n = '_' :: t := by
  cases n with
  | nil => exact absurd h (by decide)
  | cons c cs =>
    have h' : ('_' == c && pyStartsWith [] cs) = true := h
    simp only [Bool.and_eq_true, beq_iff_eq] at h'
    exact ⟨cs, by rw [h'.1]⟩

lemma underscore_name_ne {n : PyStr} (h : pyStartsWith (str "_") n = true)
    {c : Char} {rest : PyStr} (hc : ¬(c = '_')) : c :: rest ≠ n := by
  obtain ⟨t, rfl⟩ := startsWith_underscore h
  intro he
  injection he with h1 _
  exact hc h1

lemma key_ne_of_reserved {n : PyStr} (h : pyStartsWith (str "_") n = true)
    {k : PyStr}
    (hk : k = str "InvestigationInformation" ∨ k = str "StudyInformation" ∨
      k = str "AssayInformation" ∨ k = str "AssayConditions") : k ≠ n := by
  rcases hk with h1 | h1 | h1 | h1 <;> rw [h1] <;>
    exact underscore_name_ne h (by decide)

lemma to_refs_fold (refs : List ReferenceSheet) (R : List (PyStr × PyVal))
    (hfresh : ∀ r ∈ refs, ∀ e ∈ R, e.1 ≠ r.name)
    (hnd : (refs.map ReferenceSheet.name).Nodup) :
    refs.foldl (fun acc r => dictSet acc r.name (PyVal.dict r.data)) R =
      R ++ refs.map (fun r => (r.name, PyVal.dict r.data)) := by
  rw [← List.foldl_map (fun r : ReferenceSheet => (r.name, PyVal.dict r.data))
    (fun a e => dictSet a e.1 e.2)]
  apply foldl_dictSet_append
  · intro kv hkv e he
    obtain ⟨r, hr, rfl⟩ := List.mem_map.mp hkv
    exact hfresh r hr e he
  · rw [List.map_map]
    exact hnd

/-- `to_omero_dict` written as one plain concatenation: tiers in
order, then the conditions entry, then the reference sheets — valid
whenever the reference-sheet names carry the `'_'` prefix and are
pairwise distinct (so every `result[key] = value` appends a fresh
key). -/
theorem to_omero_dict_eq (m : MIHCSMEMetadata)
    (href : ∀ r ∈ m.reference_sheets, pyStartsWith (str "_") r.name = true)
    (hnd : (m.reference_sheets.map ReferenceSheet.name).Nodup) :
    m.to_omero_dict =
      tierEntries (str "InvestigationInformation")
          (m.investigation_information.map InvestigationInformation.groups) ++
      tierEntries (str "StudyInformation")
          (m.study_information.map StudyInformation.groups) ++
      tierEntries (str "AssayInformation")
          (m.assay_information.map AssayInformation.groups) ++
      condEntries m.assay_conditions ++
      refEntries m.reference_sheets := by
  obtain ⟨inv, stu, ass, conds, refs⟩ := m
  simp only at href hnd
  cases inv <;> cases stu <;> cases ass <;> cases conds <;>
    (first
      | (simp +decide only [MIHCSMEMetadata.to_omero_dict, tierEntries,
          condEntries, refEntries, dictSet, List.isEmpty_nil, List.isEmpty_cons,
          Option.map_some', Option.map_none']
         refine to_refs_fold refs _ ?_ hnd
         intro r hr e he
         fin_cases he <;> exact key_ne_of_reserved (href r hr) (by simp)))

/-! ## Reading the serialized dict back -/

lemma parseGroups_groupsVal (gs : List (PyStr × List (PyStr × PyVal))) :
    parseGroups (groupsVal gs) = .ok gs := by
  have h := mapME_ok_of_forall
    (f := fun e : PyStr × PyVal =>
      match e.2 with
      | PyVal.dict kvs => Except.ok (e.1, kvs)
      | _ => Except.error (str "Input should be a valid dictionary"))
    (g := fun e : PyStr × PyVal =>
      (e.1, match e.2 with | PyVal.dict kvs => kvs | _ => []))
    (l := gs.map (fun p => (p.1, PyVal.dict p.2)))
    (by
      intro x hx
      obtain ⟨p, hp, rfl⟩ := List.mem_map.mp hx
      rfl)
  have h2 : parseGroups (groupsVal gs) =
      Except.ok ((gs.map (fun p => (p.1, PyVal.dict p.2))).map
        (fun e : PyStr × PyVal =>
          (e.1, match e.2 with | PyVal.dict kvs => kvs | _ => []))) := h
  rw [h2, List.map_map]
  exact congrArg Except.ok (List.map_id' gs)

lemma dictGet_tierEntries_self (key : PyStr)
    (gs : Option (List (PyStr × List (PyStr × PyVal)))) :
    dictGet (tierEntries key gs) key = gs.map groupsVal := by
  cases gs <;> simp [dictGet, tierEntries]

lemma dictGet_tierEntries_ne (key : PyStr)
    (gs : Option (List (PyStr × List (PyStr × PyVal)))) (k : PyStr)
    (h : ¬(key = k)) : dictGet (tierEntries key gs) k = Option.none := by
  cases gs <;> simp [dictGet, tierEntries, h]

lemma dictGet_condEntries_ne (cs : List AssayCondition) (k : PyStr)
    (h : ¬(str "AssayConditions" = k)) :
    dictGet (condEntries cs) k = Option.none := by
  unfold condEntries
  split <;> simp [dictGet, h]

lemma dictGet_condEntries_self (cs : List AssayCondition) :
    dictGet (condEntries cs) (str "AssayConditions") =
      (if cs.isEmpty then Option.none
        else some (PyVal.list (cs.map (fun c => PyVal.dict (condDict c))))) := by
  unfold condEntries
  split <;> simp [dictGet]

lemma dictGet_refEntries_reserved {rs : List ReferenceSheet} {k : PyStr}
    (href : ∀ r ∈ rs, pyStartsWith (str "_") r.name = true)
    (hk : k = str "InvestigationInformation" ∨ k = str "StudyInformation" ∨
      k = str "AssayInformation" ∨ k = str "AssayConditions") :
    dictGet (refEntries rs) k = Option.none := by
  induction rs with
  | nil => rfl
  | cons r rest ih =>
    show (if r.name = k then some (PyVal.dict r.data) else dictGet (refEntries rest) k)
        = Option.none
    rw [if_neg (fun he =>
      key_ne_of_reserved (href r (List.mem_cons_self r rest)) hk he.symm)]
    exact ih (fun r' hr' => href r' (List.mem_cons_of_mem r hr'))

lemma condDict_eq {c : AssayCondition}
    (hkeys : ∀ e ∈ c.conditions, ¬(e.1 = str "Plate") ∧ ¬(e.1 = str "Well"))
    (hnd : (dictKeys c.conditions).Nodup) :
    condDict c =
      (str "Plate", PyVal.s c.plate) :: (str "Well", PyVal.s c.well) ::
        c.conditions := by
  unfold condDict
  rw [foldl_dictSet_append c.conditions _
    (by
      intro kv hkv e he
      have h2 := hkeys kv hkv
      rcases List.mem_cons.mp he with rfl | he2
      · exact fun hc => h2.1 hc.symm
      · have : e = (str "Well", PyVal.s c.well) := by simpa using he2
        subst this
        exact fun hc => h2.2 hc.symm) hnd]
  rfl

lemma parseCondition_condDict {c : AssayCondition}
    (hw : normalize_well_name c.well = .ok c.well)
    (hkeys : ∀ e ∈ c.conditions, ¬(e.1 = str "Plate") ∧ ¬(e.1 = str "Well"))
    (hnd : (dictKeys c.conditions).Nodup) :
    parseCondition (PyVal.dict (condDict c)) = .ok c := by
  rw [condDict_eq hkeys hnd]
  have hfilter : c.conditions.filter
      (fun e => !(e.1 == str "Plate") && !(e.1 == str "Well")) = c.conditions := by
    apply List.filter_eq_self.mpr
    intro e he
    have h2 := hkeys e he
    simp only [Bool.and_eq_true, Bool.not_eq_true', beq_eq_false_iff_ne, ne_eq]
    exact ⟨h2.1, h2.2⟩
  simp +decide only [parseCondition, dictGet, if_true, if_false, Option.getD,
    List.filter_cons]
  rw [hfilter]
  simp only [mkAssayCondition, hw]

lemma collectRefs_nil : collectRefs [] = [] := rfl

lemma collectRefs_cons_skip (e : PyStr × PyVal) (rest : List (PyStr × PyVal))
    (h : pyStartsWith (str "_") e.1 = false) :
    collectRefs (e :: rest) = collectRefs rest := by
  unfold collectRefs
  rw [List.filterMap_cons]
  have h2 : (if pyStartsWith (str "_") e.1 then
      match e.2 with
      | PyVal.dict d2 => some (⟨e.1, d2⟩ : ReferenceSheet)
      | _ => Option.none
    else Option.none) = Option.none := by
    rw [h]
    exact if_neg (by simp)
  rw [h2]

lemma collectRefs_cons_keep (k : PyStr) (dd : List (PyStr × PyVal))
    (rest : List (PyStr × PyVal)) (h : pyStartsWith (str "_") k = true) :
    collectRefs ((k, PyVal.dict dd) :: rest) =
      (⟨k, dd⟩ : ReferenceSheet) :: collectRefs rest := by
  unfold collectRefs
  rw [List.filterMap_cons]
  have h2 : (if pyStartsWith (str "_") (k, PyVal.dict dd).1 then
      match (k, PyVal.dict dd).2 with
      | PyVal.dict d2 => some (⟨(k, PyVal.dict dd).1, d2⟩ : ReferenceSheet)
      | _ => Option.none
    else Option.none) = some (⟨k, dd⟩ : ReferenceSheet) := by
    rw [if_pos h]
  rw [h2]

lemma collectRefs_append (a b : List (PyStr × PyVal)) :
    collectRefs (a ++ b) = collectRefs a ++ collectRefs b := by
  unfold collectRefs
  exact List.filterMap_append a b _

lemma collectRefs_tierEntries (key : PyStr)
    (gs : Option (List (PyStr × List (PyStr × PyVal))))
    (hkey : pyStartsWith (str "_") key = false) :
    collectRefs (tierEntries key gs) = [] := by
  cases gs with
  | none => rfl
  | some g => exact collectRefs_cons_skip (key, groupsVal g) [] hkey

lemma collectRefs_condEntries (cs : List AssayCondition) :
    collectRefs (condEntries cs) = [] := by
  unfold condEntries
  split
  · rfl
  · refine collectRefs_cons_skip _ [] ?_
    show pyStartsWith (str "_") (str "AssayConditions") = false
    decide

lemma collectRefs_refEntries (rs : List ReferenceSheet)
    (href : ∀ r ∈ rs, pyStartsWith (str "_") r.name = true) :
    collectRefs (refEntries rs) = rs := by
  induction rs with
  | nil => rfl
  | cons r rest ih =>
    show collectRefs ((r.name, PyVal.dict r.data) :: refEntries rest) = r :: rest
    rw [collectRefs_cons_keep r.name r.data _ (href r (List.mem_cons_self r rest)),
      ih (fun r' hr' => href r' (List.mem_cons_of_mem r hr'))]

/-! ## Round-trip well-formedness -/

/-- A "real Python dict" in the flat dict grammar: top-level keys are
pairwise distinct, and so are the keys of every condition dict in the
`AssayConditions` list (Python dicts cannot hold duplicate keys). -/
def OmeroDictWF (d : List (PyStr × PyVal)) : Prop :=
  (dictKeys d).Nodup ∧
  (match dictGet d (str "AssayConditions") with
    | some (PyVal.list items) =>
      ∀ item ∈ items,
        match item with
        | PyVal.dict es => (dictKeys es).Nodup
        | _ => True
    | _ => True)

/-- Invariants of every `from_omero_dict` result: wells are fixed
points of normalization, condition keys avoid `Plate`/`Well` and are
distinct, reference-sheet names carry the `'_'` prefix and are
distinct. -/
def WFMeta (m : MIHCSMEMetadata) : Prop :=
  (∀ c ∈ m.assay_conditions,
    normalize_well_name c.well = .ok c.well ∧
    (∀ e ∈ c.conditions, ¬(e.1 = str "Plate") ∧ ¬(e.1 = str "Well")) ∧
    (dictKeys c.conditions).Nodup) ∧
  (∀ r ∈ m.reference_sheets, pyStartsWith (str "_") r.name = true) ∧
  (m.reference_sheets.map ReferenceSheet.name).Nodup

lemma mkAssayCondition_ok {p w : PyVal} {conds : List (PyStr × PyVal)}
    {c : AssayCondition} (h : mkAssayCondition p w conds = .ok c) :
    normalize_well_name c.well = .ok c.well ∧ c.conditions = conds := by
  cases p <;> cases w <;>
    first
    | exact Except.noConfusion h
    | (rename_i ps ws
       cases hn : normalize_well_name ws with
       | error e =>
         exact absurd h (by simp [mkAssayCondition, hn])
       | ok w2 =>
         simp only [mkAssayCondition, hn, Except.ok.injEq] at h
         subst h
         exact ⟨normalize_fixpoint hn, rfl⟩)

lemma parseCondition_ok {v : PyVal} {c : AssayCondition}
    (h : parseCondition v = .ok c) :
    ∃ es, v = PyVal.dict es ∧
      normalize_well_name c.well = .ok c.well ∧
      c.conditions = es.filter
        (fun e => !(e.1 == str "Plate") && !(e.1 == str "Well")) := by
  cases v with
  | dict es =>
    have h2 : mkAssayCondition ((dictGet es (str "Plate")).getD (PyVal.s []))
        ((dictGet es (str "Well")).getD (PyVal.s []))
        (es.filter (fun e => !(e.1 == str "Plate") && !(e.1 == str "Well")))
        = .ok c := h
    obtain ⟨hw, hconds⟩ := mkAssayCondition_ok h2
    exact ⟨es, rfl, hw, hconds⟩
  | s v => exact Except.noConfusion h
  | i n => exact Except.noConfusion h
  | none => exact Except.noConfusion h
  | list l => exact Except.noConfusion h

lemma collectRefs_underscore {d : List (PyStr × PyVal)} {r : ReferenceSheet}
    (h : r ∈ collectRefs d) : pyStartsWith (str "_") r.name = true := by
  unfold collectRefs at h
  obtain ⟨e, he, hf⟩ := List.mem_filterMap.mp h
  have hf' : (if pyStartsWith (str "_") e.1 then
      match e.2 with
      | PyVal.dict d2 => some (⟨e.1, d2⟩ : ReferenceSheet)
      | _ => Option.none
    else Option.none) = some r := hf
  by_cases hs : pyStartsWith (str "_") e.1 = true
  · rw [if_pos hs] at hf'
    cases e2 : e.2 <;> rw [e2] at hf' <;> try exact Option.noConfusion hf'
    simp only [Option.some.injEq] at hf'
    subst hf'
    exact hs
  · rw [if_neg hs] at hf'
    exact Option.noConfusion hf'

lemma collectRefs_cons_nondict (e : PyStr × PyVal) (rest : List (PyStr × PyVal))
    (he : ∀ dd, ¬(e.2 = PyVal.dict dd)) :
    collectRefs (e :: rest) = collectRefs rest := by
  unfold collectRefs
  rw [List.filterMap_cons]
  have h2 : (if pyStartsWith (str "_") e.1 then
      match e.2 with
      | PyVal.dict d2 => some (⟨e.1, d2⟩ : ReferenceSheet)
      | _ => Option.none
    else Option.none) = Option.none := by
    cases e2 : e.2 <;> first
      | exact absurd e2 (he _)
      | (split <;> rfl)
  rw [h2]

/-- Generalized `collectRefs_cons_keep` taking the value shape as a
hypothesis. -/
lemma collectRefs_cons_keep2 (e : PyStr × PyVal) (rest : List (PyStr × PyVal))
    (hs : pyStartsWith (str "_") e.1 = true) {dd : List (PyStr × PyVal)}
    (he : e.2 = PyVal.dict dd) :
    collectRefs (e :: rest) = (⟨e.1, dd⟩ : ReferenceSheet) :: collectRefs rest := by
  unfold collectRefs
  rw [List.filterMap_cons]
  have h2 : (if pyStartsWith (str "_") e.1 then
      match e.2 with
      | PyVal.dict d2 => some (⟨e.1, d2⟩ : ReferenceSheet)
      | _ => Option.none
    else Option.none) = some (⟨e.1, dd⟩ : ReferenceSheet) := by
    rw [he, if_pos hs]
  rw [h2]

lemma collectRefs_names_sublist (d : List (PyStr × PyVal)) :
    List.Sublist ((collectRefs d).map ReferenceSheet.name) (dictKeys d) := by
  induction d with
  | nil => simp [collectRefs_nil, dictKeys]
  | cons e rest ih =>
    show List.Sublist ((collectRefs (e :: rest)).map ReferenceSheet.name)
      (e.1 :: dictKeys rest)
    by_cases hs : pyStartsWith (str "_") e.1 = true
    · cases e2 : e.2 with
      | dict dd =>
        rw [collectRefs_cons_keep2 e rest hs e2]
        exact List.Sublist.cons₂ e.1 ih
      | s v =>
        rw [collectRefs_cons_nondict e rest (by rw [e2]; intro dd hdd; exact PyVal.noConfusion hdd)]
        exact ih.cons e.1
      | i n =>
        rw [collectRefs_cons_nondict e rest (by rw [e2]; intro dd hdd; exact PyVal.noConfusion hdd)]
        exact ih.cons e.1
      | none =>
        rw [collectRefs_cons_nondict e rest (by rw [e2]; intro dd hdd; exact PyVal.noConfusion hdd)]
        exact ih.cons e.1
      | list l =>
        rw [collectRefs_cons_nondict e rest (by rw [e2]; intro dd hdd; exact PyVal.noConfusion hdd)]
        exact ih.cons e.1
    · rw [collectRefs_cons_skip e rest (Bool.eq_false_iff.mpr hs)]
      exact ih.cons e.1

/-- Every result of `from_omero_dict` on a well-formed dict satisfies
the round-trip invariants. -/
lemma from_omero_dict_wf {d : List (PyStr × PyVal)} {m : MIHCSMEMetadata}
    (hd : OmeroDictWF d) (h : MIHCSMEMetadata.from_omero_dict d = .ok m) :
    WFMeta m := by
  unfold MIHCSMEMetadata.from_omero_dict at h
  cases h1 : parseTierOpt (dictGet d (str "InvestigationInformation")) with
  | error e => rw [h1] at h; exact Except.noConfusion h
  | ok invG =>
  rw [h1] at h
  cases h2 : parseTierOpt (dictGet d (str "StudyInformation")) with
  | error e => rw [h2] at h; exact Except.noConfusion h
  | ok stuG =>
  rw [h2] at h
  cases h3 : parseTierOpt (dictGet d (str "AssayInformation")) with
  | error e => rw [h3] at h; exact Except.noConfusion h
  | ok assG =>
  rw [h3] at h
  cases h4 : parseConds (dictGet d (str "AssayConditions")) with
  | error e => rw [h4] at h; exact Except.noConfusion h
  | ok conds =>
  rw [h4] at h
  simp only [Except.ok.injEq] at h
  subst h
  refine ⟨?_, ?_, ?_⟩
  · -- conditions invariants
    intro c hc
    replace hc : c ∈ conds := hc
    unfold parseConds at h4
    cases hres : dictGet d (str "AssayConditions") with
    | none =>
      rw [hres] at h4
      simp only [Except.ok.injEq] at h4
      subst h4
      simp at hc
    | some v =>
      rw [hres] at h4
      cases v with
      | list items =>
        obtain ⟨item, hitem, hpc⟩ := mapME_ok_mem h4 c hc
        obtain ⟨es, rfl, hwell, hcondeq⟩ := parseCondition_ok hpc
        have hwf2 := hd.2
        rw [hres] at hwf2
        have hwf3 : ∀ it ∈ items,
            (match it with
              | PyVal.dict es2 => (dictKeys es2).Nodup
              | _ => True) := hwf2
        have hesnd : (dictKeys es).Nodup := hwf3 _ hitem
        refine ⟨hwell, ?_, ?_⟩
        · intro e he
          rw [hcondeq] at he
          have hp := List.of_mem_filter he
          simp only [Bool.and_eq_true, Bool.not_eq_true', beq_eq_false_iff_ne,
            ne_eq] at hp
          exact hp
        · rw [hcondeq]
          exact hesnd.sublist
            (List.Sublist.map Prod.fst (List.filter_sublist es))
      | s v =>
        simp only [Except.ok.injEq] at h4
        subst h4
        simp at hc
      | i n =>
        simp only [Except.ok.injEq] at h4
        subst h4
        simp at hc
      | none =>
        simp only [Except.ok.injEq] at h4
        subst h4
        simp at hc
      | dict es =>
        simp only [Except.ok.injEq] at h4
        subst h4
        simp at hc
  · -- reference-sheet names carry the prefix
    intro r hr
    exact collectRefs_underscore hr
  · -- reference-sheet names are distinct
    exact hd.1.sublist (collectRefs_names_sublist d)

lemma mapME_parseCondition_condDict {cs : List AssayCondition}
    (h : ∀ c ∈ cs, parseCondition (PyVal.dict (condDict c)) = .ok c) :
    mapME parseCondition (cs.map (fun c => PyVal.dict (condDict c))) = .ok cs := by
  induction cs with
  | nil => rfl
  | cons c rest ih =>
    simp only [List.map_cons, mapME, h c (List.mem_cons_self c rest),
      ih (fun c' hc' => h c' (List.mem_cons_of_mem c hc'))]

lemma parseTierOpt_groupsVal
    (gs : Option (List (PyStr × List (PyStr × PyVal)))) :
    parseTierOpt (gs.map groupsVal) = .ok gs := by
  cases gs <;> simp [parseTierOpt, parseGroups_groupsVal, Except.map]

lemma parseConds_condEntries (cs : List AssayCondition)
    (hok : ∀ c ∈ cs, parseCondition (PyVal.dict (condDict c)) = .ok c) :
    parseConds (if cs.isEmpty then Option.none
      else some (PyVal.list (cs.map (fun c => PyVal.dict (condDict c))))) =
      .ok cs := by
  cases cs with
  | nil => rfl
  | cons c rest =>
    simp only [List.isEmpty_cons, Bool.false_eq_true, if_false]
    exact mapME_parseCondition_condDict hok

/-- Re-parsing the serialized form of well-formed components
reproduces them exactly. -/
lemma from_parts
    (ig sg ag : Option (List (PyStr × List (PyStr × PyVal))))
    (cs : List AssayCondition) (rs : List ReferenceSheet)
    (href : ∀ r ∈ rs, pyStartsWith (str "_") r.name = true)
    (hok : ∀ c ∈ cs, parseCondition (PyVal.dict (condDict c)) = .ok c) :
    MIHCSMEMetadata.from_omero_dict
      (tierEntries (str "InvestigationInformation") ig ++
       tierEntries (str "StudyInformation") sg ++
       tierEntries (str "AssayInformation") ag ++
       condEntries cs ++ refEntries rs) =
      .ok ⟨ig.map InvestigationInformation.mk, sg.map StudyInformation.mk,
           ag.map AssayInformation.mk, cs, rs⟩ := by
  have hI : dictGet
      (tierEntries (str "InvestigationInformation") ig ++
       tierEntries (str "StudyInformation") sg ++
       tierEntries (str "AssayInformation") ag ++
       condEntries cs ++ refEntries rs) (str "InvestigationInformation") =
      ig.map groupsVal := by
    simp only [dictGet_append, dictGet_tierEntries_self,
      dictGet_tierEntries_ne (str "StudyInformation") sg
        (str "InvestigationInformation") (by decide),
      dictGet_tierEntries_ne (str "AssayInformation") ag
        (str "InvestigationInformation") (by decide),
      dictGet_condEntries_ne cs (str "InvestigationInformation") (by decide),
      dictGet_refEntries_reserved href (Or.inl rfl)]
    cases ig <;> simp
  have hS : dictGet
      (tierEntries (str "InvestigationInformation") ig ++
       tierEntries (str "StudyInformation") sg ++
       tierEntries (str "AssayInformation") ag ++
       condEntries cs ++ refEntries rs) (str "StudyInformation") =
      sg.map groupsVal := by
    simp only [dictGet_append, dictGet_tierEntries_self,
      dictGet_tierEntries_ne (str "InvestigationInformation") ig
        (str "StudyInformation") (by decide),
      dictGet_tierEntries_ne (str "AssayInformation") ag
        (str "StudyInformation") (by decide),
      dictGet_condEntries_ne cs (str "StudyInformation") (by decide),
      dictGet_refEntries_reserved href (Or.inr (Or.inl rfl))]
    cases sg <;> simp
  have hA : dictGet
      (tierEntries (str "InvestigationInformation") ig ++
       tierEntries (str "StudyInformation") sg ++
       tierEntries (str "AssayInformation") ag ++
       condEntries cs ++ refEntries rs) (str "AssayInformation") =
      ag.map groupsVal := by
    simp only [dictGet_append, dictGet_tierEntries_self,
      dictGet_tierEntries_ne (str "InvestigationInformation") ig
        (str "AssayInformation") (by decide),
      dictGet_tierEntries_ne (str "StudyInformation") sg
        (str "AssayInformation") (by decide),
      dictGet_condEntries_ne cs (str "AssayInformation") (by decide),
      dictGet_refEntries_reserved href (Or.inr (Or.inr (Or.inl rfl)))]
    cases ag <;> simp
  have hC : dictGet
      (tierEntries (str "InvestigationInformation") ig ++
       tierEntries (str "StudyInformation") sg ++
       tierEntries (str "AssayInformation") ag ++
       condEntries cs ++ refEntries rs) (str "AssayConditions") =
      (if cs.isEmpty then Option.none
        else some (PyVal.list (cs.map (fun c => PyVal.dict (condDict c))))) := by
    simp only [dictGet_append, dictGet_condEntries_self,
      dictGet_tierEntries_ne (str "InvestigationInformation") ig
        (str "AssayConditions") (by decide),
      dictGet_tierEntries_ne (str "StudyInformation") sg
        (str "AssayConditions") (by decide),
      dictGet_tierEntries_ne (str "AssayInformation") ag
        (str "AssayConditions") (by decide),
      dictGet_refEntries_reserved href (Or.inr (Or.inr (Or.inr rfl)))]
    cases cs <;> simp
  have hR : collectRefs
      (tierEntries (str "InvestigationInformation") ig ++
       tierEntries (str "StudyInformation") sg ++
       tierEntries (str "AssayInformation") ag ++
       condEntries cs ++ refEntries rs) = rs := by
    simp only [collectRefs_append,
      collectRefs_tierEntries (str "InvestigationInformation") ig (by decide),
      collectRefs_tierEntries (str "StudyInformation") sg (by decide),
      collectRefs_tierEntries (str "AssayInformation") ag (by decide),
      collectRefs_condEntries, collectRefs_refEntries rs href]
    simp
  unfold MIHCSMEMetadata.from_omero_dict
  rw [hI, hS, hA, hC, hR, parseTierOpt_groupsVal, parseTierOpt_groupsVal,
    parseTierOpt_groupsVal, parseConds_condEntries cs hok]

/-- C1 core: serializing and re-parsing reproduces a well-formed
metadata aggregate exactly. -/
theorem from_to_omero (m : MIHCSMEMetadata) (hwf : WFMeta m) :
    MIHCSMEMetadata.from_omero_dict m.to_omero_dict = .ok m := by
  obtain ⟨hconds, href, hnd⟩ := hwf
  rw [to_omero_dict_eq m href hnd,
    from_parts _ _ _ _ _ href
      (fun c hc =>
        parseCondition_condDict (hconds c hc).1 (hconds c hc).2.1
          (hconds c hc).2.2)]
  obtain ⟨inv, stu, ass, conds, refs⟩ := m
  cases inv <;> cases stu <;> cases ass <;> rfl

/-- C1: for every metadata aggregate `m` built from the flat dict
grammar (a real Python dict `d`, i.e. with `Nodup` keys at top level
and inside each condition dict, such that
`MIHCSMEMetadata.from_omero_dict d` succeeds with `m`), the round trip
`from_omero_dict (to_omero_dict m)` reproduces `m` exactly: every
tier/group/field/value, every condition's plate, (already normalized)
well label and condition fields, and every reference sheet's name and
data. -/
theorem c1_round_trip (d : List (PyStr × PyVal)) (hwf : OmeroDictWF d)
    (m : MIHCSMEMetadata) (hm : MIHCSMEMetadata.from_omero_dict d = .ok m) :
    MIHCSMEMetadata.from_omero_dict m.to_omero_dict = .ok m :=
  from_to_omero m (from_omero_dict_wf hwf hm)

/-- Witness for C1 at a concrete dict exercising a tier, a condition
(whose well `"a1"` normalizes to `"A01"`) and a reference sheet. -/
theorem c1_round_trip_witness :
    OmeroDictWF
      [(str "StudyInformation",
        .dict [(str "Study", .dict [(str "Title", .s (str "T"))])]),
       (str "AssayConditions",
        .list [.dict [(str "Plate", .s (str "P1")), (str "Well", .s (str "a1")),
                      (str "Drug", .s (str "DMSO"))]]),
       (str "_Org", .dict [(str "Human", .s (str "Homo"))])] ∧
    MIHCSMEMetadata.from_omero_dict
      [(str "StudyInformation",
        .dict [(str "Study", .dict [(str "Title", .s (str "T"))])]),
       (str "AssayConditions",
        .list [.dict [(str "Plate", .s (str "P1")), (str "Well", .s (str "a1")),
                      (str "Drug", .s (str "DMSO"))]]),
       (str "_Org", .dict [(str "Human", .s (str "Homo"))])] =
      .ok ⟨Option.none, some ⟨[(str "Study", [(str "Title", .s (str "T"))])]⟩,
           Option.none,
           [⟨str "P1", str "A01", [(str "Drug", .s (str "DMSO"))]⟩],
           [⟨str "_Org", [(str "Human", .s (str "Homo"))]⟩]⟩ ∧
    MIHCSMEMetadata.from_omero_dict
      (MIHCSMEMetadata.to_omero_dict
        ⟨Option.none, some ⟨[(str "Study", [(str "Title", .s (str "T"))])]⟩,
         Option.none,
         [⟨str "P1", str "A01", [(str "Drug", .s (str "DMSO"))]⟩],
         [⟨str "_Org", [(str "Human", .s (str "Homo"))]⟩]⟩) =
      .ok ⟨Option.none, some ⟨[(str "Study", [(str "Title", .s (str "T"))])]⟩,
           Option.none,
           [⟨str "P1", str "A01", [(str "Drug", .s (str "DMSO"))]⟩],
           [⟨str "_Org", [(str "Human", .s (str "Homo"))]⟩]⟩ := by
  have hwf : OmeroDictWF
      [(str "StudyInformation",
        .dict [(str "Study", .dict [(str "Title", .s (str "T"))])]),
       (str "AssayConditions",
        .list [.dict [(str "Plate", .s (str "P1")), (str "Well", .s (str "a1")),
                      (str "Drug", .s (str "DMSO"))]]),
       (str "_Org", .dict [(str "Human", .s (str "Homo"))])] := by
    refine ⟨by decide, ?_⟩
    intro item hitem
    rcases List.mem_singleton.mp hitem with rfl
    show (dictKeys [(str "Plate", PyVal.s (str "P1")),
      (str "Well", PyVal.s (str "a1")),
      (str "Drug", PyVal.s (str "DMSO"))]).Nodup
    decide
  exact ⟨hwf, by rfl, c1_round_trip _ hwf _ (by rfl)⟩

/-! ## C9: missing or too-short wells make `from_omero_dict` raise -/

/-- A well whose stripped form has fewer than 2 characters fails
normalization (the length check fires). -/
lemma normalize_short {w : PyStr} (h : (pyStrip w).length < 2) :
    ∃ e, normalize_well_name w = .error e := by
  unfold normalize_well_name
  cases hp : pyStrip w with
  | nil => exact ⟨_, rfl⟩
  | cons c rest =>
    cases rest with
    | nil => exact ⟨_, rfl⟩
    | cons c2 rest2 =>
      rw [hp] at h
      simp at h
      omega

lemma mkAssayCondition_err {p : PyVal} {conds : List (PyStr × PyVal)}
    {ws : PyStr} (h : ∃ e, normalize_well_name ws = .error e) :
    ∀ c, ¬(mkAssayCondition p (PyVal.s ws) conds = .ok c) := by
  obtain ⟨e, he⟩ := h
  intro c hok
  cases p <;> first
    | exact Except.noConfusion hok
    | (simp only [mkAssayCondition, he] at hok
       exact Except.noConfusion hok)

/-- C9: `from_omero_dict` raises a validation error (it does not skip
the entry or return) whenever the input's `AssayConditions` list
contains a dict lacking a `Well` key, or one whose `Well` value is a
string shorter than 2 characters after trimming: the missing key
defaults to the empty string, which the well validator's length check
rejects. -/
theorem c9_bad_well_raises (d : List (PyStr × PyVal)) (items : List PyVal)
    (hlist : dictGet d (str "AssayConditions") = some (PyVal.list items))
    (item : PyVal) (hitem : item ∈ items) (es : List (PyStr × PyVal))
    (hes : item = PyVal.dict es)
    (hbad : dictGet es (str "Well") = Option.none ∨
      ∃ w, dictGet es (str "Well") = some (PyVal.s w) ∧ (pyStrip w).length < 2) :
    ∃ e, MIHCSMEMetadata.from_omero_dict d = .error e := by
  subst hes
  have hbadok : ∀ c, ¬(parseCondition (PyVal.dict es) = .ok c) := by
    intro c hok
    have h2 : mkAssayCondition ((dictGet es (str "Plate")).getD (PyVal.s []))
        ((dictGet es (str "Well")).getD (PyVal.s []))
        (es.filter (fun e => !(e.1 == str "Plate") && !(e.1 == str "Well")))
        = .ok c := hok
    rcases hbad with hb | ⟨w, hw, hlen⟩
    · rw [hb] at h2
      exact mkAssayCondition_err (normalize_short (by decide)) c h2
    · rw [hw] at h2
      exact mkAssayCondition_err (normalize_short hlen) c h2
  obtain ⟨e0, he0⟩ := mapME_error_of_mem hitem
    (fun c => hbadok c)
  have hpc : parseConds (dictGet d (str "AssayConditions")) = .error e0 := by
    rw [hlist]
    exact he0
  unfold MIHCSMEMetadata.from_omero_dict
  cases h1 : parseTierOpt (dictGet d (str "InvestigationInformation")) with
  | error e =>
    simp only [h1]
    exact ⟨e, rfl⟩
  | ok invG =>
  simp only [h1]
  cases h2 : parseTierOpt (dictGet d (str "StudyInformation")) with
  | error e =>
    simp only [h2]
    exact ⟨e, rfl⟩
  | ok stuG =>
  simp only [h2]
  cases h3 : parseTierOpt (dictGet d (str "AssayInformation")) with
  | error e =>
    simp only [h3]
    exact ⟨e, rfl⟩
  | ok assG =>
  simp only [h3]
  simp only [hpc]
  exact ⟨e0, rfl⟩

/-- Witness for C9: one condition dict lacking `Well`, and one whose
`Well` is `" "` (empty after trimming). -/
theorem c9_bad_well_raises_witness :
    (∃ e, MIHCSMEMetadata.from_omero_dict
      [(str "AssayConditions",
        PyVal.list [PyVal.dict [(str "Plate", PyVal.s (str "P1"))]])] =
      .error e) ∧
    (∃ e, MIHCSMEMetadata.from_omero_dict
      [(str "AssayConditions",
        PyVal.list [PyVal.dict [(str "Plate", PyVal.s (str "P1")),
                                (str "Well", PyVal.s (str " "))]])] =
      .error e) :=
  ⟨c9_bad_well_raises _ _ rfl _ (List.mem_singleton.mpr rfl) _ rfl (Or.inl rfl),
   c9_bad_well_raises _ _ rfl _ (List.mem_singleton.mpr rfl) _ rfl
     (Or.inr ⟨str " ", rfl, by decide⟩)⟩

/-! ## C10: key presence in `to_omero_dict` -/

/-- The `result` dict of `to_omero_dict` just before the
reference-sheet loop (`models.py` lines 159-183), as a function of the
four earlier fields (derived form for stating lemmas). -/
def toBase (inv : Option InvestigationInformation) (stu : Option StudyInformation)
    (ass : Option AssayInformation) (conds : List AssayCondition) :
    List (PyStr × PyVal) :=
  let r0 : List (PyStr × PyVal) := []
  let r1 := match inv with
    | some t => dictSet r0 (str "InvestigationInformation") (groupsVal t.groups)
    | Option.none => r0
  let r2 := match stu with
    | some t => dictSet r1 (str "StudyInformation") (groupsVal t.groups)
    | Option.none => r1
  let r3 := match ass with
    | some t => dictSet r2 (str "AssayInformation") (groupsVal t.groups)
    | Option.none => r2
  if conds.isEmpty then r3
  else dictSet r3 (str "AssayConditions")
    (.list (conds.map (fun c => PyVal.dict (condDict c))))

lemma to_omero_dict_foldl (m : MIHCSMEMetadata) :
    m.to_omero_dict =
      m.reference_sheets.foldl (fun acc r => dictSet acc r.name (PyVal.dict r.data))
        (toBase m.investigation_information m.study_information
          m.assay_information m.assay_conditions) := rfl

lemma dictGet_overwrite {α : Type} {k x : PyStr} (v : α) (h : ¬(x = k)) :
    ∀ (d : List (PyStr × α)),
      dictGet (d.map (fun e => if e.1 = k then (k, v) else e)) x = dictGet d x
  | [] => rfl
  | e :: rest => by
    by_cases he : e.1 = k
    · have hfe : (if e.1 = k then ((k, v) : PyStr × α) else e) = (k, v) := if_pos he
      show dictGet ((if e.1 = k then ((k, v) : PyStr × α) else e) :: rest.map _) x = _
      rw [hfe]
      show (if k = x then some v else dictGet (rest.map _) x) =
        (if e.1 = x then some e.2 else dictGet rest x)
      rw [if_neg (fun hh => h hh.symm),
        if_neg (fun hh : e.1 = x => h (hh ▸ he)),
        dictGet_overwrite v h rest]
    · have hfe : (if e.1 = k then ((k, v) : PyStr × α) else e) = e := if_neg he
      show dictGet ((if e.1 = k then ((k, v) : PyStr × α) else e) :: rest.map _) x = _
      rw [hfe]
      show (if e.1 = x then some e.2 else dictGet (rest.map _) x) =
        (if e.1 = x then some e.2 else dictGet rest x)
      rw [dictGet_overwrite v h rest]

lemma dictGet_dictSet_ne {α : Type} (d : List (PyStr × α)) {k x : PyStr} (v : α)
    (h : ¬(x = k)) : dictGet (dictSet d k v) x = dictGet d x := by
  unfold dictSet
  split
  · exact dictGet_overwrite v h d
  · rw [dictGet_append]
    cases hd : dictGet d x with
    | some v2 => rfl
    | none =>
      show (if k = x then some v else Option.none) = Option.none
      rw [if_neg (fun hh => h hh.symm)]

lemma dictGet_foldl_refs {x : PyStr} :
    ∀ (refs : List ReferenceSheet), (∀ r ∈ refs, ¬(x = r.name)) →
    ∀ R, dictGet
      (refs.foldl (fun acc r => dictSet acc r.name (PyVal.dict r.data)) R) x =
      dictGet R x
  | [], _, R => rfl
  | r :: rest, hx, R => by
    simp only [List.foldl_cons]
    rw [dictGet_foldl_refs rest
      (fun r' hr' => hx r' (List.mem_cons_of_mem r hr')),
      dictGet_dictSet_ne R _ (hx r (List.mem_cons_self r rest))]

lemma dictGet_toBase_I (inv : Option InvestigationInformation)
    (stu : Option StudyInformation) (ass : Option AssayInformation)
    (conds : List AssayCondition) :
    dictGet (toBase inv stu ass conds) (str "InvestigationInformation") =
      inv.map (fun t => groupsVal t.groups) := by
  cases inv <;> cases stu <;> cases ass <;> cases conds <;>
    simp +decide [toBase, dictSet, dictGet]

lemma dictGet_toBase_S (inv : Option InvestigationInformation)
    (stu : Option StudyInformation) (ass : Option AssayInformation)
    (conds : List AssayCondition) :
    dictGet (toBase inv stu ass conds) (str "StudyInformation") =
      stu.map (fun t => groupsVal t.groups) := by
  cases inv <;> cases stu <;> cases ass <;> cases conds <;>
    simp +decide [toBase, dictSet, dictGet]

lemma dictGet_toBase_A (inv : Option InvestigationInformation)
    (stu : Option StudyInformation) (ass : Option AssayInformation)
    (conds : List AssayCondition) :
    dictGet (toBase inv stu ass conds) (str "AssayInformation") =
      ass.map (fun t => groupsVal t.groups) := by
  cases inv <;> cases stu <;> cases ass <;> cases conds <;>
    simp +decide [toBase, dictSet, dictGet]

lemma dictGet_toBase_C (inv : Option InvestigationInformation)
    (stu : Option StudyInformation) (ass : Option AssayInformation)
    (conds : List AssayCondition) :
    dictGet (toBase inv stu ass conds) (str "AssayConditions") =
      (if conds.isEmpty then Option.none
        else some (PyVal.list (conds.map (fun c => PyVal.dict (condDict c))))) := by
  cases inv <;> cases stu <;> cases ass <;> cases conds <;>
    simp +decide [toBase, dictSet, dictGet]

/-- C10 counterexample: a `MIHCSMEMetadata` whose
`investigation_information` is `None` but which owns a (prefix-less)
reference sheet named `"InvestigationInformation"` serializes to a
dict that *does* contain the key `InvestigationInformation` — so the
claimed "if and only if" fails as stated. -/
theorem c10_counterexample :
    MIHCSMEMetadata.to_omero_dict
      ⟨Option.none, Option.none, Option.none, [],
       [⟨str "InvestigationInformation", []⟩]⟩ =
      [(str "InvestigationInformation", PyVal.dict [])] ∧
    (⟨Option.none, Option.none, Option.none, [],
      [⟨str "InvestigationInformation", []⟩]⟩ :
        MIHCSMEMetadata).investigation_information = Option.none ∧
    (dictGet (MIHCSMEMetadata.to_omero_dict
      ⟨Option.none, Option.none, Option.none, [],
       [⟨str "InvestigationInformation", []⟩]⟩)
      (str "InvestigationInformation")).isSome = true :=
  ⟨rfl, rfl, by rfl⟩

/-- C10 (amended): provided every reference sheet's name starts with
`'_'` (as parsing and `from_omero_dict` guarantee), `to_omero_dict`'s
output contains the key `InvestigationInformation` (resp.
`StudyInformation`, `AssayInformation`) iff the corresponding tier is
set, and contains `AssayConditions` iff the conditions list is
non-empty; a metadata value with an empty conditions list is literally
one with no conditions, so both serialize identically. -/
theorem c10_key_presence (m : MIHCSMEMetadata)
    (href : ∀ r ∈ m.reference_sheets, pyStartsWith (str "_") r.name = true) :
    ((dictGet m.to_omero_dict (str "InvestigationInformation")).isSome ↔
      m.investigation_information.isSome) ∧
    ((dictGet m.to_omero_dict (str "StudyInformation")).isSome ↔
      m.study_information.isSome) ∧
    ((dictGet m.to_omero_dict (str "AssayInformation")).isSome ↔
      m.assay_information.isSome) ∧
    ((dictGet m.to_omero_dict (str "AssayConditions")).isSome ↔
      ¬(m.assay_conditions.isEmpty = true)) := by
  refine ⟨?_, ?_, ?_, ?_⟩
  · rw [to_omero_dict_foldl m,
      dictGet_foldl_refs m.reference_sheets
        (fun r hr => key_ne_of_reserved (href r hr) (Or.inl rfl)) _,
      dictGet_toBase_I]
    cases m.investigation_information <;> simp
  · rw [to_omero_dict_foldl m,
      dictGet_foldl_refs m.reference_sheets
        (fun r hr => key_ne_of_reserved (href r hr) (Or.inr (Or.inl rfl))) _,
      dictGet_toBase_S]
    cases m.study_information <;> simp
  · rw [to_omero_dict_foldl m,
      dictGet_foldl_refs m.reference_sheets
        (fun r hr => key_ne_of_reserved (href r hr) (Or.inr (Or.inr (Or.inl rfl)))) _,
      dictGet_toBase_A]
    cases m.assay_information <;> simp
  · rw [to_omero_dict_foldl m,
      dictGet_foldl_refs m.reference_sheets
        (fun r hr => key_ne_of_reserved (href r hr) (Or.inr (Or.inr (Or.inr rfl)))) _,
      dictGet_toBase_C]
    cases m.assay_conditions <;> simp

/-- Witness for C10 at a concrete metadata value with a study tier,
one condition, and one (properly prefixed) reference sheet. -/
theorem c10_key_presence_witness :
    (∀ r ∈ ([⟨str "_Org", []⟩] : List ReferenceSheet),
      pyStartsWith (str "_") r.name = true) ∧
    (((dictGet (MIHCSMEMetadata.to_omero_dict
        ⟨Option.none, some ⟨[]⟩, Option.none,
         [⟨str "P1", str "A01", []⟩], [⟨str "_Org", []⟩]⟩)
        (str "InvestigationInformation")).isSome ↔
      (Option.none : Option InvestigationInformation).isSome) ∧
    ((dictGet (MIHCSMEMetadata.to_omero_dict
        ⟨Option.none, some ⟨[]⟩, Option.none,
         [⟨str "P1", str "A01", []⟩], [⟨str "_Org", []⟩]⟩)
        (str "StudyInformation")).isSome ↔
      (some (⟨[]⟩ : StudyInformation)).isSome) ∧
    ((dictGet (MIHCSMEMetadata.to_omero_dict
        ⟨Option.none, some ⟨[]⟩, Option.none,
         [⟨str "P1", str "A01", []⟩], [⟨str "_Org", []⟩]⟩)
        (str "AssayInformation")).isSome ↔
      (Option.none : Option AssayInformation).isSome) ∧
    ((dictGet (MIHCSMEMetadata.to_omero_dict
        ⟨Option.none, some ⟨[]⟩, Option.none,
         [⟨str "P1", str "A01", []⟩], [⟨str "_Org", []⟩]⟩)
        (str "AssayConditions")).isSome ↔
      ¬(([⟨str "P1", str "A01", []⟩] : List AssayCondition).isEmpty = true))) := by
  have h : ∀ r ∈ ([⟨str "_Org", []⟩] : List ReferenceSheet),
      pyStartsWith (str "_") r.name = true := by
    intro r hr
    rcases List.mem_singleton.mp hr with rfl
    decide
  exact ⟨h, c10_key_presence _ h⟩

/-- The reference sheets of a `from_omero_dict` result are exactly
`collectRefs` of the input. -/
lemma from_omero_dict_refs {d : List (PyStr × PyVal)} {m : MIHCSMEMetadata}
    (h : MIHCSMEMetadata.from_omero_dict d = .ok m) :
    m.reference_sheets = collectRefs d := by
  unfold MIHCSMEMetadata.from_omero_dict at h
  cases h1 : parseTierOpt (dictGet d (str "InvestigationInformation")) with
  | error e => rw [h1] at h; exact Except.noConfusion h
  | ok invG =>
  rw [h1] at h
  cases h2 : parseTierOpt (dictGet d (str "StudyInformation")) with
  | error e => rw [h2] at h; exact Except.noConfusion h
  | ok stuG =>
  rw [h2] at h
  cases h3 : parseTierOpt (dictGet d (str "AssayInformation")) with
  | error e => rw [h3] at h; exact Except.noConfusion h
  | ok assG =>
  rw [h3] at h
  cases h4 : parseConds (dictGet d (str "AssayConditions")) with
  | error e => rw [h4] at h; exact Except.noConfusion h
  | ok conds =>
  rw [h4] at h
  simp only [Except.ok.injEq] at h
  subst h
  rfl

/-! ## C5: `delete_annotations_from_object` (`omero_connection.py` lines 136-176) -/

/-- An OMERO annotation as observed by
`delete_annotations_from_object`: its id, whether it has a `getNs`
accessor (`hasattr(ann, "getNs")`), and its namespace (`None` or a
string; OMERO namespaces can also be empty strings). -/
structure Ann where
  id : Nat
  hasNs : Bool
  ns : Option PyStr

/-- The `continue` condition of the loop (`omero_connection.py` lines
162-166): an annotation is skipped (kept) only when the `namespace`
argument is truthy, the annotation has `getNs`, its namespace is
truthy, and that namespace does not start with the given prefix. -/
def skipAnn (ns : Option PyStr) (a : Ann) : Bool :=
  match ns with
  | Option.none => false
  | some p =>
    !(p.isEmpty) && a.hasNs &&
      (match a.ns with
        | some s => !(s.isEmpty) && !(pyStartsWith p s)
        | Option.none => false)

/-- `delete_annotations_from_object`: the object is either absent
(`conn.getObject` returned `None`) or carries a list of annotations.
Returns the ids passed to `conn.deleteObjects` (empty list means the
call is not made) and the returned count. -/
def delete_annotations_from_object (obj : Option (List Ann))
    (ns : Option PyStr) : List Nat × Nat :=
  match obj with
  | Option.none => ([], 0)
  | some anns =>
    let annotations_to_delete := (anns.filter (fun a => !(skipAnn ns a))).map Ann.id
    (annotations_to_delete, annotations_to_delete.length)

/-- The set of annotations the function actually deletes, phrased
positively: those without a `getNs` accessor, with a falsy (absent or
empty) namespace, or whose namespace starts with the prefix. -/
def delPred (p : PyStr) (a : Ann) : Bool :=
  !(a.hasNs) ||
    (match a.ns with
      | Option.none => true
      | some s => s.isEmpty || pyStartsWith p s)

lemma not_skipAnn_eq_delPred {p : PyStr} (hp : p.isEmpty = false) (a : Ann) :
    (!(skipAnn (some p) a)) = delPred p a := by
  obtain ⟨i, h, ns⟩ := a
  cases h <;> cases ns <;> simp [skipAnn, delPred, hp]

/-- C5 counterexample: with prefix `"MIHCSME"`, an annotation whose
namespace is `None` (which does not start with the prefix) is
nevertheless deleted — the loop only skips annotations with a *truthy*
namespace that fails the prefix test. -/
theorem c5_counterexample :
    delete_annotations_from_object (some [⟨7, true, Option.none⟩])
      (some (str "MIHCSME")) = ([7], 1) ∧
    (⟨7, true, Option.none⟩ : Ann).ns = Option.none ∧
    (∀ s, (⟨7, true, Option.none⟩ : Ann).ns = some s →
      pyStartsWith (str "MIHCSME") s = true) :=
  ⟨rfl, rfl, fun _ hs => Option.noConfusion hs⟩

/-- C5 (amended): with a non-empty namespace prefix,
`delete_annotations_from_object` removes exactly the annotations that
lack a truthy namespace (no `getNs`, `None`, or empty) *or* whose
namespace starts with the prefix, and returns their count; when zero
annotations match it returns 0 (and, being total, raises nothing);
it is idempotent — a second call on the remaining annotations deletes
nothing — and an absent object also yields 0. -/
theorem c5_delete_semantics (anns : List Ann) (p : PyStr)
    (hp : p.isEmpty = false) :
    delete_annotations_from_object (some anns) (some p) =
      ((anns.filter (delPred p)).map Ann.id,
        ((anns.filter (delPred p)).map Ann.id).length) ∧
    (anns.filter (delPred p) = [] →
      delete_annotations_from_object (some anns) (some p) = ([], 0)) ∧
    delete_annotations_from_object
      (some (anns.filter (fun a => !(delPred p a)))) (some p) = ([], 0) ∧
    delete_annotations_from_object Option.none (some p) = ([], 0) := by
  have hfilter : ∀ l : List Ann,
      l.filter (fun a => !(skipAnn (some p) a)) = l.filter (delPred p) := by
    intro l
    apply List.filter_congr
    intro a _
    exact not_skipAnn_eq_delPred hp a
  refine ⟨?_, ?_, ?_, rfl⟩
  · show ((anns.filter (fun a => !(skipAnn (some p) a))).map Ann.id,
      ((anns.filter (fun a => !(skipAnn (some p) a))).map Ann.id).length) = _
    rw [hfilter]
  · intro hnil
    show ((anns.filter (fun a => !(skipAnn (some p) a))).map Ann.id,
      ((anns.filter (fun a => !(skipAnn (some p) a))).map Ann.id).length) = ([], 0)
    rw [hfilter, hnil]
    rfl
  · show (((anns.filter (fun a => !(delPred p a))).filter
        (fun a => !(skipAnn (some p) a))).map Ann.id,
      (((anns.filter (fun a => !(delPred p a))).filter
        (fun a => !(skipAnn (some p) a))).map Ann.id).length) = ([], 0)
    rw [hfilter]
    have : (anns.filter (fun a => !(delPred p a))).filter (delPred p) = [] := by
      apply List.filter_eq_nil_iff.mpr
      intro a ha
      have := List.of_mem_filter ha
      simp only [Bool.not_eq_true'] at this
      simp [this]
    rw [this]
    rfl

/-- Witness for C5 at concrete annotations: one matching the prefix,
one with another namespace (kept), one with no namespace (deleted). -/
theorem c5_delete_semantics_witness :
    ((str "MIHCSME").isEmpty = false) ∧
    (delete_annotations_from_object
      (some [⟨1, true, some (str "MIHCSME/Study")⟩,
             ⟨2, true, some (str "other")⟩,
             ⟨3, true, Option.none⟩]) (some (str "MIHCSME")) =
      (([⟨1, true, some (str "MIHCSME/Study")⟩,
         ⟨2, true, some (str "other")⟩,
         ⟨3, true, Option.none⟩].filter
            (delPred (str "MIHCSME"))).map Ann.id,
        (([⟨1, true, some (str "MIHCSME/Study")⟩,
         ⟨2, true, some (str "other")⟩,
         ⟨3, true, Option.none⟩].filter
            (delPred (str "MIHCSME"))).map Ann.id).length) ∧
      (([⟨1, true, some (str "MIHCSME/Study")⟩,
         ⟨2, true, some (str "other")⟩,
         ⟨3, true, Option.none⟩].filter (delPred (str "MIHCSME"))) = [] →
        delete_annotations_from_object
          (some [⟨1, true, some (str "MIHCSME/Study")⟩,
                 ⟨2, true, some (str "other")⟩,
                 ⟨3, true, Option.none⟩]) (some (str "MIHCSME")) = ([], 0)) ∧
      delete_annotations_from_object
        (some ([⟨1, true, some (str "MIHCSME/Study")⟩,
                ⟨2, true, some (str "other")⟩,
                ⟨3, true, Option.none⟩].filter
          (fun a => !(delPred (str "MIHCSME") a)))) (some (str "MIHCSME")) =
        ([], 0) ∧
      delete_annotations_from_object Option.none (some (str "MIHCSME")) =
        ([], 0)) :=
  ⟨rfl, c5_delete_semantics _ _ rfl⟩

/-! ## C3: the Grouping Engine's downward mapping -/

/-- Modelled from the spec: `_organize_into_groups` lives in
`mihcsme_py/uploader.py`, which is not among the provided sources
(only its tests are).  Per spec section 4.3, classification is "not by
content, but by a fixed dictionary of known field names per group",
with pattern matches for the ORCID-investigator and per-index
collaborator fields; the field lists follow the spec's examples and
the repository's tests.  Any unmatched name falls into the catch-all
`Metadata` group. -/
def classifyField (k : PyStr) : PyStr :=
  if k = str "First Name" ∨ k = str "Last Name" ∨ k = str "E-Mail Address" ∨
      pyStartsWith (str "ORCID investigator") k = true then
    str "DataOwner"
  else if pyStartsWith (str "ORCID  Data Collaborator") k = true then
    str "DataCollaborator"
  else if k = str "Project ID" ∨ k = str "Investigation Title" then
    str "InvestigationInfo"
  else if k = str "Study Title" ∨ k = str "Study internal ID" then
    str "Study"
  else if k = str "Biosample Taxon" ∨ k = str "Biosample Organism" ∨
      k = str "Cell lines storage location" then
    str "Biosample"
  else if k = str "Library File Name" ∨ k = str "Library Type" then
    str "Library"
  else if k = str "HCS library protocol" then
    str "Protocols"
  else if k = str "Plate type" then
    str "Plate"
  else if k = str "Assay Title" ∨ k = str "Assay internal ID" ∨
      k = str "Number of plates" then
    str "Assay"
  else if k = str "Imaging protocol" ∨ k = str "Sample preparation protocol" then
    str "AssayComponent"
  else if k = str "Image number of pixelsX" ∨ k = str "Image number of pixelsY" ∨
      k = str "Image number of channels" ∨ k = str "Image sites per well" then
    str "ImageData"
  else if k = str "Microscope id" then
    str "ImageAcquisition"
  else if k = str "Channel Transmission id" ∨
      k = str "Channel 1 visualization method" then
    str "Specimen"
  else
    str "Metadata"

/-- Modelled from the spec: one step of the grouping loop — put the
field into its group's dict (`result.setdefault(group, {})[key] =
value` semantics: groups keep first-seen order, fields are dict
assignments). -/
def addToGroup (acc : List (PyStr × List (PyStr × PyVal))) (g k : PyStr)
    (v : PyVal) : List (PyStr × List (PyStr × PyVal)) :=
  if acc.any (fun p => p.1 = g) then
    acc.map (fun p => if p.1 = g then (p.1, dictSet p.2 k v) else p)
  else acc ++ [(g, [(k, v)])]

/-- Modelled from the spec: `_organize_into_groups` maps a flat
field-name-to-value dict onto the fixed group taxonomy, one field at a
time. -/
def _organize_into_groups (flat : List (PyStr × PyVal)) :
    List (PyStr × List (PyStr × PyVal)) :=
  flat.foldl (fun acc e => addToGroup acc (classifyField e.1) e.1 e.2) []

lemma dictGet_found {α : Type} :
    ∀ {d : List (PyStr × α)} {k : PyStr},
      d.any (fun e => e.1 = k) = true → ∃ v, dictGet d k = some v := by
  intro d
  induction d with
  | nil => intro k h; simp at h
  | cons e rest ih =>
    intro k h
    by_cases he : e.1 = k
    · exact ⟨e.2, by show (if e.1 = k then some e.2 else _) = _; rw [if_pos he]⟩
    · simp only [List.any_cons, Bool.or_eq_true, decide_eq_true_eq] at h
      rcases h with h | h
      · exact absurd h he
      · obtain ⟨v, hv⟩ := ih h
        exact ⟨v, by show (if e.1 = k then some e.2 else _) = _; rw [if_neg he]; exact hv⟩

lemma dictGet_not_found {α : Type} :
    ∀ {d : List (PyStr × α)} {k : PyStr},
      ¬(d.any (fun e => e.1 = k) = true) → dictGet d k = Option.none := by
  intro d
  induction d with
  | nil => intro k _; rfl
  | cons e rest ih =>
    intro k h
    have he : ¬(e.1 = k) := fun hc => h (by simp [List.any_cons, hc])
    have hrest : ¬(rest.any (fun e => e.1 = k) = true) := fun hc =>
      h (by simp [List.any_cons, hc])
    show (if e.1 = k then some e.2 else _) = _
    rw [if_neg he]
    exact ih hrest

lemma mem_dictSet {α : Type} {d : List (PyStr × α)} {k : PyStr} {v : α}
    {q : PyStr × α} (h : q ∈ dictSet d k v) : q ∈ d ∨ q = (k, v) := by
  unfold dictSet at h
  split at h
  · obtain ⟨e, he, hfe⟩ := List.mem_map.mp h
    by_cases hek : e.1 = k
    · rw [if_pos hek] at hfe
      right
      exact hfe.symm
    · rw [if_neg hek] at hfe
      left
      exact hfe ▸ he
  · rcases List.mem_append.mp h with h1 | h2
    · left
      exact h1
    · right
      simpa using h2

/-- Looking up any group in the group-modification map of
`addToGroup`: the found entry is modified iff it is the target group. -/
lemma dictGet_groupmod_at {g' k' : PyStr} {v' : PyVal} (g : PyStr) :
    ∀ (acc : List (PyStr × List (PyStr × PyVal))),
    dictGet (acc.map (fun p => if p.1 = g' then (p.1, dictSet p.2 k' v') else p)) g =
      (dictGet acc g).map (fun es => if g = g' then dictSet es k' v' else es)
  | [] => rfl
  | p :: rest => by
    by_cases hp : p.1 = g'
    · show dictGet ((if p.1 = g' then (p.1, dictSet p.2 k' v') else p) :: _) g = _
      rw [if_pos hp]
      by_cases hg : p.1 = g
      · show (if p.1 = g then some (dictSet p.2 k' v') else _) = _
        rw [if_pos hg]
        show _ = (if p.1 = g then some p.2 else _).map _
        rw [if_pos hg]
        simp only [Option.map_some']
        rw [if_pos (hg ▸ hp)]
      · show (if p.1 = g then some (dictSet p.2 k' v') else _) = _
        rw [if_neg hg]
        show _ = (if p.1 = g then some p.2 else dictGet rest g).map _
        rw [if_neg hg]
        exact dictGet_groupmod_at g rest
    · show dictGet ((if p.1 = g' then (p.1, dictSet p.2 k' v') else p) :: _) g = _
      rw [if_neg hp]
      by_cases hg : p.1 = g
      · show (if p.1 = g then some p.2 else _) = (if p.1 = g then some p.2 else _).map _
        rw [if_pos hg, if_pos hg]
        simp only [Option.map_some']
        rw [if_neg (fun hc : g = g' => hp (hg.trans hc))]
      · show (if p.1 = g then some p.2 else _) = (if p.1 = g then some p.2 else _).map _
        rw [if_neg hg, if_neg hg]
        exact dictGet_groupmod_at g rest

lemma dictGet_overwrite_self {α : Type} (k : PyStr) (v : α) :
    ∀ (d : List (PyStr × α)), d.any (fun e => e.1 = k) = true →
    dictGet (d.map (fun e => if e.1 = k then (k, v) else e)) k = some v
  | [], h => by simp at h
  | e :: rest, h => by
    by_cases he : e.1 = k
    · show dictGet ((if e.1 = k then ((k, v) : PyStr × α) else e) :: _) k = some v
      rw [if_pos he]
      show (if k = k then some v else _) = some v
      rw [if_pos rfl]
    · show dictGet ((if e.1 = k then ((k, v) : PyStr × α) else e) :: _) k = some v
      rw [if_neg he]
      show (if e.1 = k then some e.2 else _) = some v
      rw [if_neg he]
      refine dictGet_overwrite_self k v rest ?_
      have h2 : (decide (e.1 = k) || rest.any (fun e => decide (e.1 = k))) = true := h
      rw [decide_eq_false he, Bool.false_or] at h2
      exact h2

lemma dictGet_dictSet_self {α : Type} (d : List (PyStr × α)) (k : PyStr) (v : α) :
    dictGet (dictSet d k v) k = some v := by
  unfold dictSet
  split
  · rename_i hany
    exact dictGet_overwrite_self k v d hany
  · rename_i hany
    rw [dictGet_append, dictGet_not_found hany]
    show (if k = k then some v else Option.none) = some v
    rw [if_pos rfl]

lemma addToGroup_lookup_self (acc : List (PyStr × List (PyStr × PyVal)))
    (g k : PyStr) (v : PyVal) :
    ∃ es, dictGet (addToGroup acc g k v) g = some es ∧ dictGet es k = some v := by
  unfold addToGroup
  split
  · rename_i hany
    obtain ⟨es0, hes0⟩ := dictGet_found hany
    refine ⟨dictSet es0 k v, ?_, dictGet_dictSet_self es0 k v⟩
    rw [dictGet_groupmod_at g acc, hes0]
    simp
  · rename_i hany
    refine ⟨[(k, v)], ?_, ?_⟩
    · rw [dictGet_append, dictGet_not_found hany]
      show (if g = g then some [(k, v)] else Option.none) = _
      rw [if_pos rfl]
    · show (if k = k then some v else Option.none) = some v
      rw [if_pos rfl]

lemma addToGroup_lookup_preserve {acc : List (PyStr × List (PyStr × PyVal))}
    {g2 k2 : PyStr} {v2 : PyVal} {g k : PyStr} {es : List (PyStr × PyVal)}
    {v : PyVal} (hk : ¬(k = k2)) (hes : dictGet acc g = some es)
    (hv : dictGet es k = some v) :
    ∃ es2, dictGet (addToGroup acc g2 k2 v2) g = some es2 ∧
      dictGet es2 k = some v := by
  unfold addToGroup
  split
  · refine ⟨if g = g2 then dictSet es k2 v2 else es, ?_, ?_⟩
    · rw [dictGet_groupmod_at g acc, hes]
      simp only [Option.map_some']
    · by_cases hg : g = g2
      · rw [if_pos hg, dictGet_dictSet_ne es v2 hk]
        exact hv
      · rw [if_neg hg]
        exact hv
  · refine ⟨es, ?_, hv⟩
    rw [dictGet_append, hes]

lemma addToGroup_classified {acc : List (PyStr × List (PyStr × PyVal))}
    {k : PyStr} {v : PyVal}
    (hP : ∀ p ∈ acc, ∀ q ∈ p.2, classifyField q.1 = p.1) :
    ∀ p ∈ addToGroup acc (classifyField k) k v, ∀ q ∈ p.2,
      classifyField q.1 = p.1 := by
  intro p hp q hq
  unfold addToGroup at hp
  split at hp
  · obtain ⟨p0, hp0, hfp⟩ := List.mem_map.mp hp
    by_cases hpg : p0.1 = classifyField k
    · rw [if_pos hpg] at hfp
      subst hfp
      rcases mem_dictSet hq with h1 | h1
      · exact hP p0 hp0 q h1
      · subst h1
        exact hpg.symm
    · rw [if_neg hpg] at hfp
      subst hfp
      exact hP p0 hp0 q hq
  · rcases List.mem_append.mp hp with h1 | h2
    · exact hP p h1 q hq
    · have h3 : p = (classifyField k, [(k, v)]) := List.mem_singleton.mp h2
      subst h3
      have h4 : q = (k, v) := List.mem_singleton.mp hq
      subst h4
      rfl

lemma organize_P :
    ∀ (rest : List (PyStr × PyVal)) (acc : List (PyStr × List (PyStr × PyVal))),
    (∀ p ∈ acc, ∀ q ∈ p.2, classifyField q.1 = p.1) →
    ∀ p ∈ rest.foldl (fun a e => addToGroup a (classifyField e.1) e.1 e.2) acc,
      ∀ q ∈ p.2, classifyField q.1 = p.1
  | [], _, hP => hP
  | e :: rest, acc, hP => by
    simp only [List.foldl_cons]
    exact organize_P rest _ (addToGroup_classified hP)

lemma organize_lookup_preserve :
    ∀ (rest : List (PyStr × PyVal)) (acc : List (PyStr × List (PyStr × PyVal)))
      (g k : PyStr) (es : List (PyStr × PyVal)) (v : PyVal),
    ¬(k ∈ rest.map Prod.fst) →
    dictGet acc g = some es → dictGet es k = some v →
    ∃ es2, dictGet
      (rest.foldl (fun a e => addToGroup a (classifyField e.1) e.1 e.2) acc) g =
        some es2 ∧
      dictGet es2 k = some v
  | [], _, _, _, _, _, _, hes, hv => ⟨_, hes, hv⟩
  | e :: rest, acc, g, k, es, v, hnmem, hes, hv => by
    simp only [List.foldl_cons]
    have hke : ¬(k = e.1) := fun hc => hnmem (by
      rw [List.map_cons, hc]
      exact List.mem_cons_self e.1 (rest.map Prod.fst))
    obtain ⟨es1, hes1, hv1⟩ := addToGroup_lookup_preserve hke hes hv
    exact organize_lookup_preserve rest _ g k es1 v
      (fun hc => hnmem (by
        rw [List.map_cons]
        exact List.mem_cons_of_mem e.1 hc)) hes1 hv1

lemma organize_lookup_exists :
    ∀ (rest : List (PyStr × PyVal)) (acc : List (PyStr × List (PyStr × PyVal))),
    (rest.map Prod.fst).Nodup →
    ∀ k v, (k, v) ∈ rest →
    ∃ es, dictGet
      (rest.foldl (fun a e => addToGroup a (classifyField e.1) e.1 e.2) acc)
        (classifyField k) = some es ∧
      dictGet es k = some v
  | [], _, _, k, v, h => absurd h (List.not_mem_nil (k, v))
  | e :: rest, acc, hnd, k, v, h => by
    simp only [List.foldl_cons]
    simp only [List.map_cons, List.nodup_cons] at hnd
    rcases List.mem_cons.mp h with h1 | h2
    · subst h1
      obtain ⟨es0, hes0, hv0⟩ := addToGroup_lookup_self acc (classifyField k) k v
      exact organize_lookup_preserve rest _ (classifyField k) k es0 v
        hnd.1 hes0 hv0
    · exact organize_lookup_exists rest _ hnd.2 k v h2

/-- Modelled from the spec: the "known field" test — a field name
matched by some group's fixed name list or pattern (same conditions,
in the same order, as `classifyField`). -/
def isKnownField (k : PyStr) : Bool :=
  if k = str "First Name" ∨ k = str "Last Name" ∨ k = str "E-Mail Address" ∨
      pyStartsWith (str "ORCID investigator") k = true then true
  else if pyStartsWith (str "ORCID  Data Collaborator") k = true then true
  else if k = str "Project ID" ∨ k = str "Investigation Title" then true
  else if k = str "Study Title" ∨ k = str "Study internal ID" then true
  else if k = str "Biosample Taxon" ∨ k = str "Biosample Organism" ∨
      k = str "Cell lines storage location" then true
  else if k = str "Library File Name" ∨ k = str "Library Type" then true
  else if k = str "HCS library protocol" then true
  else if k = str "Plate type" then true
  else if k = str "Assay Title" ∨ k = str "Assay internal ID" ∨
      k = str "Number of plates" then true
  else if k = str "Imaging protocol" ∨ k = str "Sample preparation protocol" then
    true
  else if k = str "Image number of pixelsX" ∨ k = str "Image number of pixelsY" ∨
      k = str "Image number of channels" ∨ k = str "Image sites per well" then
    true
  else if k = str "Microscope id" then true
  else if k = str "Channel Transmission id" ∨
      k = str "Channel 1 visualization method" then true
  else false

/-- Unmatched field names land in the catch-all `Metadata` group. -/
lemma classify_unknown {k : PyStr} (h : isKnownField k = false) :
    classifyField k = str "Metadata" := by
  unfold isKnownField at h
  unfold classifyField
  simp_all

/-- C3: the downward grouping map is total — for any flat dict (with
the distinct keys every real Python dict has), every field is placed
in exactly one group (the one `classifyField` names, with value
preserved), every field found in a group was classified to that group
(so no second group can contain it), and any field name not matched by
a known group is classified to the catch-all `Metadata` group. -/
theorem c3_grouping_total (flat : List (PyStr × PyVal))
    (hnd : (flat.map Prod.fst).Nodup) :
    (∀ k v, (k, v) ∈ flat →
      ∃ es, dictGet (_organize_into_groups flat) (classifyField k) = some es ∧
        dictGet es k = some v) ∧
    (∀ p ∈ _organize_into_groups flat, ∀ q ∈ p.2, classifyField q.1 = p.1) ∧
    (∀ k, isKnownField k = false → classifyField k = str "Metadata") := by
  refine ⟨?_, ?_, fun k h => classify_unknown h⟩
  · intro k v hkv
    exact organize_lookup_exists flat [] hnd k v hkv
  · exact organize_P flat []
      (fun p hp => absurd hp (List.not_mem_nil p))

/-- Witness for C3 at a flat dict mixing a known field and two unknown
ones (which fall into `Metadata`). -/
theorem c3_grouping_total_witness :
    (([(str "First Name", PyVal.s (str "John")),
       (str "Unknown Field 1", PyVal.s (str "value1")),
       (str "Random Key", PyVal.s (str "value2"))].map Prod.fst).Nodup) ∧
    ((∀ k v, (k, v) ∈ [(str "First Name", PyVal.s (str "John")),
       (str "Unknown Field 1", PyVal.s (str "value1")),
       (str "Random Key", PyVal.s (str "value2"))] →
      ∃ es, dictGet (_organize_into_groups
          [(str "First Name", PyVal.s (str "John")),
           (str "Unknown Field 1", PyVal.s (str "value1")),
           (str "Random Key", PyVal.s (str "value2"))]) (classifyField k) =
          some es ∧
        dictGet es k = some v) ∧
    (∀ p ∈ _organize_into_groups
        [(str "First Name", PyVal.s (str "John")),
         (str "Unknown Field 1", PyVal.s (str "value1")),
         (str "Random Key", PyVal.s (str "value2"))],
      ∀ q ∈ p.2, classifyField q.1 = p.1) ∧
    (∀ k, isKnownField k = false → classifyField k = str "Metadata")) :=
  ⟨by decide, c3_grouping_total _ (by decide)⟩

/-! ## The spreadsheet parser (`parser.py`)

A workbook is modeled at the level pandas hands to the parser: each
sheet is a rectangular grid of cells, a cell being absent (`NaN`) or a
scalar (the sheets in scope hold text and integers).  `pd.read_excel`
consumes the first grid row as column names, so each `_parse_*`
function works on `sheet.tail`. -/

/-- A spreadsheet cell scalar (text or integer; the MIHCSME sheets in
scope hold no other kinds). -/
inductive Scalar where
  | s (v : PyStr) : Scalar
  | i (n : Int) : Scalar
deriving DecidableEq

/-- Python `str(scalar)`. -/
def scalarStr (sc : Scalar) : PyStr :=
  match sc with
  | .s v => v
  | .i n => intRepr n

/-- A cell: `NaN` or a scalar. -/
abbrev Cell := Option Scalar

/-- The scalar of a cell as a `PyVal` (`None if pd.isna(value) else
value`). -/
def cellToPyVal (c : Cell) : PyVal :=
  match c with
  | Option.none => PyVal.none
  | some (.s v) => PyVal.s v
  | some (.i n) => PyVal.i n

abbrev Sheet := List (List Cell)

abbrev Workbook := List (PyStr × Sheet)

/-- `row.iloc[i]` on a (rectangular, NaN-padded) pandas row. -/
def cellAt (row : List Cell) (i : Nat) : Cell := (row.get? i).getD Option.none

/-- `astype(str)` on one cell: `NaN` stringifies to `"nan"`. -/
def cellStr (c : Cell) : PyStr :=
  match c with
  | Option.none => str "nan"
  | some sc => scalarStr sc

/-- The comment-row test `df.iloc[:, 0].astype(str).str.startswith("#")`. -/
def isCommentRow (row : List Cell) : Bool :=
  pyStartsWith (str "#") (cellStr (cellAt row 0))

/-- Scalar-keyed dict lookup (tier-sheet `sheet_data` keys are raw
cell scalars). -/
def sDictGet (d : List (Scalar × List (Scalar × PyVal))) (k : Scalar) :
    Option (List (Scalar × PyVal)) :=
  match d with
  | [] => Option.none
  | (k', v) :: rest => if k' = k then some v else sDictGet rest k

/-- `sheet_data[group][key] = value` with
`if group not in sheet_data: sheet_data[group] = {}` semantics. -/
def sAddToGroup (d : List (Scalar × List (Scalar × PyVal))) (g k : Scalar)
    (v : PyVal) : List (Scalar × List (Scalar × PyVal)) :=
  if d.any (fun p => p.1 = g) then
    d.map (fun p => if p.1 = g then
      (p.1, if p.2.any (fun e => e.1 = k) then
        p.2.map (fun e => if e.1 = k then (k, v) else e)
      else p.2 ++ [(k, v)])
    else p)
  else d ++ [(g, [(k, v)])]

/-- Whether a key-value row is skipped (`parser.py` lines 130-144):
group `NaN`, the `Annotation_groups` placeholder, or a `#` comment. -/
def kvGroupSkip (group : Cell) : Bool :=
  match group with
  | Option.none => true
  | some g =>
    (match g with
      | .s v => v == str "Annotation_groups"
      | _ => false) || pyStartsWith (str "#") (scalarStr g)

/-- `_parse_key_value_sheet` (`parser.py` lines 110-160): skip comment
rows, then accumulate `{group: {key: value}}` from the three logical
columns, skipping placeholder groups, short rows, and rows with no
key. -/
def _parse_key_value_sheet (sheet : Sheet) :
    List (Scalar × List (Scalar × PyVal)) :=
  let df := sheet.tail
  let rows := df.filter (fun r => !(isCommentRow r))
  rows.foldl (fun sheet_data row =>
    if kvGroupSkip (cellAt row 0) then sheet_data
    else
      match cellAt row 0 with
      | Option.none => sheet_data
      | some group =>
        if row.length > 2 then
          match cellAt row 1 with
          | Option.none => sheet_data
          | some key => sAddToGroup sheet_data group key (cellToPyVal (cellAt row 2))
        else sheet_data) []

/-- Pydantic validation of `InvestigationInformation(groups=sheet_data)`
and friends: `Dict[str, Dict[str, Any]]` requires string keys at both
levels. -/
def mkTierGroups (sd : List (Scalar × List (Scalar × PyVal))) :
    Except PyStr (List (PyStr × List (PyStr × PyVal))) :=
  mapME (fun g =>
    match g.1 with
    | .s gname =>
      (mapME (fun e =>
        match e.1 with
        | .s kn => Except.ok (kn, e.2)
        | _ => Except.error (str "Input should be a valid string")) g.2).map
        (fun kvs => (gname, kvs))
    | _ => Except.error (str "Input should be a valid string")) sd

/-- The tier value handed to `MIHCSMEMetadata` (`parser.py` lines
62-80 and the pydantic construction): an absent sheet leaves the tier
`None`; an empty parsed dict is passed through as `{}`, which pydantic
validates into a tier with empty `groups`; a non-empty dict is wrapped
(validating its keys). -/
def tierFromSheet (present : Bool)
    (sd : List (Scalar × List (Scalar × PyVal))) :
    Except PyStr (Option (List (PyStr × List (PyStr × PyVal)))) :=
  if present then
    if sd.isEmpty then .ok (some [])
    else (mkTierGroups sd).map some
  else .ok Option.none

/-- `row.iloc[0]` on a stringy (dtype=str) row. -/
def strCellAt (row : List (Option PyStr)) (i : Nat) : Option PyStr :=
  (row.get? i).getD Option.none

/-- `astype(str)` for dtype=str cells. -/
def strCellStr (c : Option PyStr) : PyStr :=
  match c with
  | Option.none => str "nan"
  | some v => v

/-- The labeled columns of the conditions table after
`data_rows.loc[:, ~pd.isna(headers)]`: column positions paired with
their non-NaN header names, in order. -/
def colIdxOf (headers : List (Option PyStr)) : List (Nat × PyStr) :=
  headers.enum.filterMap (fun p => p.2.map (fun h => (p.1, h)))

/-- `row.get(name)` by column label, then the cell itself: `None`
both when the label is absent and when the cell is `NaN` (either way
`pd.isna` holds). -/
def colLookup (ci : List (Nat × PyStr)) (row : List (Option PyStr))
    (name : PyStr) : Option PyStr :=
  match ci.find? (fun q => q.2 == name) with
  | some q => (row.get? q.1).getD Option.none
  | Option.none => Option.none

/-- One iteration of the conditions loop (`parser.py` lines 193-212):
skip the row when Plate or Well is missing, otherwise collect every
other column's non-empty value and construct (validating the well). -/
def condRow (ci : List (Nat × PyStr)) (row : List (Option PyStr)) :
    Except PyStr (Option AssayCondition) :=
  match colLookup ci row (str "Plate"), colLookup ci row (str "Well") with
  | some p, some w =>
    (mkAssayCondition (PyVal.s p) (PyVal.s w)
      (ci.filterMap (fun q =>
        if q.2 = str "Plate" ∨ q.2 = str "Well" then Option.none
        else ((row.get? q.1).getD Option.none).map
          (fun cv => (q.2, PyVal.s cv))))).map some
  | _, _ => .ok Option.none

/-- `_parse_assay_conditions` (`parser.py` lines 163-219): read with
`dtype=str`, strip comment rows, take the first surviving row as the
header, require `Plate` and `Well` columns, drop NaN-headed columns,
and turn each remaining row into at most one `AssayCondition`. -/
def _parse_assay_conditions (sheet : Sheet) :
    Except PyStr (List AssayCondition) :=
  let df := sheet.tail.map (fun r => r.map (Option.map scalarStr))
  let rows := df.filter
    (fun r => !(pyStartsWith (str "#") (strCellStr (strCellAt r 0))))
  match rows with
  | [] => .ok []
  | headers :: dataRows =>
    if ¬(headers.contains (some (str "Plate")) = true ∧
        headers.contains (some (str "Well")) = true) then
      .error (str "Missing required 'Plate' or 'Well' column in AssayConditions")
    else
      (mapME (condRow (colIdxOf headers)) dataRows).map (List.filterMap id)

/-- `_parse_reference_sheet` (`parser.py` lines 222-275): strip
comment and all-NaN rows — pandas row labels survive this filtering,
and the source then uses the first surviving *label* as a *positional*
index (`df.iloc[header_row_idx]`), which this embedding reproduces;
any failure (e.g. the positional index being out of range) is caught
by the blanket `except` and degrades to an empty dict. -/
def _parse_reference_sheet (sheet : Sheet) : List (PyStr × PyVal) :=
  let labeled := sheet.tail.enum
  let f1 := labeled.filter (fun p => !(isCommentRow p.2))
  let f2 := f1.filter (fun p => !(p.2.all (fun c => c.isNone)))
  match f2 with
  | [] => []
  | (lab0, _) :: _ =>
    match (f2.map Prod.snd).get? lab0 with
    | Option.none => []
    | some headers =>
      if headers.length < 2 then []
      else
        ((f2.map Prod.snd).drop (lab0 + 1)).foldl (fun rd row =>
          if row.length ≥ 2 then
            match cellAt row 0 with
            | Option.none => rd
            | some keySc => dictSet rd (scalarStr keySc) (cellToPyVal (cellAt row 1))
          else rd) []

/-- The four required sheet names (`parser.py` lines 21-24 and 56). -/
def requiredSheets : List PyStr :=
  [str "InvestigationInformation", str "StudyInformation",
   str "AssayInformation", str "AssayConditions"]

/-- `", ".join(missing)`. -/
def joinComma : List PyStr → PyStr
  | [] => []
  | [s] => s
  | s :: rest => s ++ str ", " ++ joinComma rest

/-- `pd.read_excel(xls, sheet_name=name)`: the (first) sheet with
that name. -/
def wbGet (wb : Workbook) (name : PyStr) : Sheet :=
  ((wb.find? (fun p => p.1 == name)).map Prod.snd).getD []

/-- One iteration of the reference-sheet loop (`parser.py` lines
88-93): sheets whose name starts with `'_'` are parsed, and a
non-empty result is wrapped in a `ReferenceSheet`. -/
def refFromSheet (wb : Workbook) (name : PyStr) : Option ReferenceSheet :=
  if pyStartsWith (str "_") name then
    if (_parse_reference_sheet (wbGet wb name)).isEmpty then Option.none
    else some (⟨name, _parse_reference_sheet (wbGet wb name)⟩ : ReferenceSheet)
  else Option.none

/-- `parse_excel_to_model` (`parser.py` lines 27-107), from the point
where the workbook is open: check the four required sheets (collecting
every missing name before failing), parse the three tier sheets, the
conditions sheet, and the `'_'`-prefixed reference sheets (an empty
reference dict is not appended). -/
def parse_excel_to_model (wb : Workbook) : Except PyStr MIHCSMEMetadata :=
  let available := wb.map Prod.fst
  let missing := requiredSheets.filter (fun s => !(available.contains s))
  if ¬(missing.isEmpty = true) then
    .error (str "Missing required sheets: " ++ joinComma missing)
  else
    match tierFromSheet (available.contains (str "InvestigationInformation"))
        (_parse_key_value_sheet (wbGet wb (str "InvestigationInformation"))) with
    | .error e => .error e
    | .ok invG =>
    match tierFromSheet (available.contains (str "StudyInformation"))
        (_parse_key_value_sheet (wbGet wb (str "StudyInformation"))) with
    | .error e => .error e
    | .ok stuG =>
    match tierFromSheet (available.contains (str "AssayInformation"))
        (_parse_key_value_sheet (wbGet wb (str "AssayInformation"))) with
    | .error e => .error e
    | .ok assG =>
    match (if available.contains (str "AssayConditions") = true then
        _parse_assay_conditions (wbGet wb (str "AssayConditions"))
      else .ok []) with
    | .error e => .error e
    | .ok conds =>
      .ok ⟨invG.map InvestigationInformation.mk,
           stuG.map StudyInformation.mk,
           assG.map AssayInformation.mk,
           conds,
           available.filterMap (refFromSheet wb)⟩

/-! ## C4: the missing-sheets check -/

/-- `s` occurs contiguously inside `m` (Python `s in m`). -/
def IsSubstr (s m : PyStr) : Prop := ∃ a b, m = a ++ s ++ b

lemma joinComma_substr {l : List PyStr} {s : PyStr} (h : s ∈ l) :
    ∃ a b, joinComma l = a ++ s ++ b := by
  induction l with
  | nil => cases h
  | cons hd tl ih =>
    cases tl with
    | nil =>
      have hh : s = hd := by
        have := List.mem_singleton.mp h
        exact this
      subst hh
      exact ⟨[], [], by simp [joinComma]⟩
    | cons hd2 tl2 =>
      rcases List.mem_cons.mp h with rfl | h2
      · exact ⟨[], str ", " ++ joinComma (hd2 :: tl2),
          by simp [joinComma, List.append_assoc]⟩
      · obtain ⟨a, b, hab⟩ := ih h2
        exact ⟨hd ++ str ", " ++ a, b,
          by simp [joinComma, hab, List.append_assoc]⟩

/-- C4: a workbook missing one or more of the four required sheet
names makes `parse_excel_to_model` fail with a single error whose
message contains every missing sheet name (the check collects all the
missing names before failing). -/
theorem c4_missing_sheets (wb : Workbook)
    (h : ¬((requiredSheets.filter
      (fun s => !((wb.map Prod.fst).contains s))).isEmpty = true)) :
    ∃ msg, parse_excel_to_model wb = .error msg ∧
      ∀ s ∈ requiredSheets, s ∉ wb.map Prod.fst → IsSubstr s msg := by
  refine ⟨str "Missing required sheets: " ++
    joinComma (requiredSheets.filter
      (fun s => !((wb.map Prod.fst).contains s))), ?_, ?_⟩
  · simp only [parse_excel_to_model]
    rw [if_pos h]
  · intro s hs hna
    have hc : (wb.map Prod.fst).contains s = false := by
      cases hcc : (wb.map Prod.fst).contains s with
      | false => rfl
      | true => exact absurd (List.elem_iff.mp hcc) hna
    have hmem : s ∈ requiredSheets.filter
        (fun t => !((wb.map Prod.fst).contains t)) :=
      List.mem_filter.mpr ⟨hs, by rw [hc]; rfl⟩
    obtain ⟨a, b, hab⟩ := joinComma_substr hmem
    exact ⟨str "Missing required sheets: " ++ a, b,
      by rw [hab]; simp [List.append_assoc]⟩

/-- A workbook holding only a `StudyInformation` sheet fails with an
error naming the three absent sheets. -/
theorem c4_missing_sheets_witness :
    (¬((requiredSheets.filter (fun s =>
      !((([(str "StudyInformation", ([] : Sheet))] : Workbook).map
        Prod.fst).contains s))).isEmpty = true)) ∧
    (∃ msg, parse_excel_to_model [(str "StudyInformation", ([] : Sheet))] =
        .error msg ∧
      ∀ s ∈ requiredSheets,
        s ∉ ([(str "StudyInformation", ([] : Sheet))] : Workbook).map Prod.fst →
        IsSubstr s msg) :=
  ⟨by decide, c4_missing_sheets [(str "StudyInformation", [])] (by decide)⟩

/-! ## C6: the conditions table -/

/-- From the claim: a data row with non-empty `Plate` and `Well`
yields one condition whose well is normalized and whose conditions
hold precisely the other columns' non-empty values for that row; a
row missing `Plate` or `Well` is skipped. -/
def rowSpec (ci : List (Nat × PyStr)) (row : List (Option PyStr)) :
    Option AssayCondition :=
  match colLookup ci row (str "Plate"), colLookup ci row (str "Well") with
  | some p, some w =>
    match normalize_well_name w with
    | .ok w2 => some ⟨p, w2,
        ci.filterMap (fun q =>
          if q.2 = str "Plate" ∨ q.2 = str "Well" then Option.none
          else ((row.get? q.1).getD Option.none).map
            (fun cv => (q.2, PyVal.s cv)))⟩
    | .error _ => Option.none
  | _, _ => Option.none

lemma condRow_eq_rowSpec {ci : List (Nat × PyStr)} {row : List (Option PyStr)}
    (hok : ∀ w, colLookup ci row (str "Well") = some w →
      ∃ w2, normalize_well_name w = Except.ok w2) :
    condRow ci row = .ok (rowSpec ci row) := by
  cases hp : colLookup ci row (str "Plate") with
  | none =>
    cases hw : colLookup ci row (str "Well") <;>
      simp only [condRow, rowSpec, hp, hw]
  | some p =>
    cases hw : colLookup ci row (str "Well") with
    | none => simp only [condRow, rowSpec, hp, hw]
    | some w =>
      obtain ⟨w2, hn⟩ := hok w hw
      simp only [condRow, rowSpec, hp, hw, mkAssayCondition, hn, Except.map]

/-- The claim's example sheet: a title row consumed as pandas column
names, a header row `Plate, Well, Compound`, one data row
`PlateA, a1, DMSO`. -/
def condSheetEx : Sheet :=
  [[some (Scalar.s (str "c0")), some (Scalar.s (str "c1")),
    some (Scalar.s (str "c2"))],
   [some (Scalar.s (str "Plate")), some (Scalar.s (str "Well")),
    some (Scalar.s (str "Compound"))],
   [some (Scalar.s (str "PlateA")), some (Scalar.s (str "a1")),
    some (Scalar.s (str "DMSO"))]]

/-- The example's header row after `dtype=str` reading. -/
def condHeadersEx : List (Option PyStr) :=
  [some (str "Plate"), some (str "Well"), some (str "Compound")]

/-- The example's data rows after `dtype=str` reading. -/
def condDataRowsEx : List (List (Option PyStr)) :=
  [[some (str "PlateA"), some (str "a1"), some (str "DMSO")]]

/-- C6: on a conditions sheet whose comment-stripped table is
`headers :: dataRows`, the parser fails with the validation error when
the headers lack `Plate` or `Well`; with both present (and every
present well normalizable), each data row yields at most one condition
as described by `rowSpec` — exactly one per row with non-empty `Plate`
and `Well`, holding precisely the other columns' non-empty values —
and the claim's `PlateA/a1/DMSO` example yields exactly
`{plate: "PlateA", well: "A01", conditions: {"Compound": "DMSO"}}`. -/
theorem c6_conditions_table (sheet : Sheet) (headers : List (Option PyStr))
    (dataRows : List (List (Option PyStr)))
    (hf : (sheet.tail.map (fun r => r.map (Option.map scalarStr))).filter
      (fun r => !(pyStartsWith (str "#") (strCellStr (strCellAt r 0)))) =
      headers :: dataRows)
    (hok : ∀ row ∈ dataRows, ∀ w,
      colLookup (colIdxOf headers) row (str "Well") = some w →
      ∃ w2, normalize_well_name w = Except.ok w2) :
    (¬(headers.contains (some (str "Plate")) = true ∧
        headers.contains (some (str "Well")) = true) →
      _parse_assay_conditions sheet =
        .error (str "Missing required 'Plate' or 'Well' column in AssayConditions")) ∧
    ((headers.contains (some (str "Plate")) = true ∧
        headers.contains (some (str "Well")) = true) →
      _parse_assay_conditions sheet =
        .ok (dataRows.filterMap (rowSpec (colIdxOf headers)))) ∧
    _parse_assay_conditions condSheetEx =
      .ok [⟨str "PlateA", str "A01",
        [(str "Compound", PyVal.s (str "DMSO"))]⟩] := by
  refine ⟨?_, ?_, rfl⟩
  · intro hmiss
    simp only [_parse_assay_conditions, hf]
    rw [if_pos hmiss]
  · intro hpres
    simp only [_parse_assay_conditions, hf]
    rw [if_neg (not_not_intro hpres)]
    rw [mapME_ok_of_forall (fun row hr => condRow_eq_rowSpec (hok row hr))]
    simp only [Except.map, List.filterMap_map, Function.id_comp]

/-- The claim's example run through the theorem. -/
theorem c6_conditions_table_witness :
    ((condSheetEx.tail.map (fun r => r.map (Option.map scalarStr))).filter
      (fun r => !(pyStartsWith (str "#") (strCellStr (strCellAt r 0)))) =
      condHeadersEx :: condDataRowsEx) ∧
    ((¬(condHeadersEx.contains (some (str "Plate")) = true ∧
        condHeadersEx.contains (some (str "Well")) = true) →
      _parse_assay_conditions condSheetEx =
        .error (str "Missing required 'Plate' or 'Well' column in AssayConditions")) ∧
    ((condHeadersEx.contains (some (str "Plate")) = true ∧
        condHeadersEx.contains (some (str "Well")) = true) →
      _parse_assay_conditions condSheetEx =
        .ok (condDataRowsEx.filterMap (rowSpec (colIdxOf condHeadersEx)))) ∧
    _parse_assay_conditions condSheetEx =
      .ok [⟨str "PlateA", str "A01",
        [(str "Compound", PyVal.s (str "DMSO"))]⟩]) :=
  ⟨rfl, c6_conditions_table condSheetEx condHeadersEx condDataRowsEx rfl
    (fun row hr w hw => by
      have hr2 : row = [some (str "PlateA"), some (str "a1"), some (str "DMSO")] :=
        List.mem_singleton.mp hr
      subst hr2
      have hw2 : str "a1" = w := Option.some.inj hw
      subst hw2
      exact ⟨str "A01", rfl⟩)⟩

/-! ## C8: the reference-sheet name prefix -/

lemma refFromSheet_prefix {wb : Workbook} {name : PyStr} {r : ReferenceSheet}
    (h : refFromSheet wb name = some r) :
    pyStartsWith (str "_") r.name = true := by
  unfold refFromSheet at h
  split at h
  · split at h
    · exact Option.noConfusion h
    · rename_i hpre _
      obtain rfl := Option.some.inj h
      exact hpre
  · exact Option.noConfusion h

/-- The reference sheets of a `parse_excel_to_model` result are
exactly the surviving `'_'`-prefixed sheets of the workbook. -/
lemma parse_refs {wb : Workbook} {m : MIHCSMEMetadata}
    (h : parse_excel_to_model wb = .ok m) :
    m.reference_sheets = (wb.map Prod.fst).filterMap (refFromSheet wb) := by
  simp only [parse_excel_to_model] at h
  split at h
  · exact Except.noConfusion h
  · split at h
    · exact Except.noConfusion h
    · split at h
      · exact Except.noConfusion h
      · split at h
        · exact Except.noConfusion h
        · split at h
          · exact Except.noConfusion h
          · obtain rfl := Except.ok.inj h
            rfl

/-- C8 counterexample: a `ReferenceSheet` constructed directly is a
live instance even when its name lacks the reserved `'_'` prefix —
nothing validates the field. -/
theorem c8_counterexample :
    ∃ r : ReferenceSheet, pyStartsWith (str "_") r.name = false :=
  ⟨⟨str "Organisms", [(str "9606", PyVal.s (str "Homo sapiens"))]⟩, rfl⟩

/-- C8 (amended): every reference sheet produced by `from_omero_dict`
or by `parse_excel_to_model` has a name starting with the reserved
`'_'` prefix; direct construction carries no such guarantee. -/
theorem c8_reference_prefix :
    (∀ (d : List (PyStr × PyVal)) (m : MIHCSMEMetadata),
      MIHCSMEMetadata.from_omero_dict d = .ok m →
      ∀ r ∈ m.reference_sheets, pyStartsWith (str "_") r.name = true) ∧
    (∀ (wb : Workbook) (m : MIHCSMEMetadata),
      parse_excel_to_model wb = .ok m →
      ∀ r ∈ m.reference_sheets, pyStartsWith (str "_") r.name = true) := by
  constructor
  · intro d m h r hr
    rw [from_omero_dict_refs h] at hr
    exact collectRefs_underscore hr
  · intro wb m h r hr
    rw [parse_refs h] at hr
    obtain ⟨name, _, hf⟩ := List.mem_filterMap.mp hr
    exact refFromSheet_prefix hf

/-- A dict holding one `'_'`-keyed reference sheet, deserialized; its
sheet's name carries the prefix. -/
theorem c8_reference_prefix_witness :
    (MIHCSMEMetadata.from_omero_dict [(str "_Org", PyVal.dict [])] =
      .ok ⟨Option.none, Option.none, Option.none, [], [⟨str "_Org", []⟩]⟩) ∧
    pyStartsWith (str "_")
      ((⟨str "_Org", []⟩ : ReferenceSheet)).name = true :=
  ⟨rfl, c8_reference_prefix.1 [(str "_Org", PyVal.dict [])]
    ⟨Option.none, Option.none, Option.none, [], [⟨str "_Org", []⟩]⟩ rfl
    ⟨str "_Org", []⟩ (List.mem_singleton.mpr rfl)⟩
